import Mathlib

/-!
# Record store and controller of the prototype catalogue

A shallow embedding of the REST handlers of `api/index.js`, of the
`prototypeSchema` they rely on, and of the `PrototypeManager` of `js/app.js`.
The handlers are pure functions over an explicit store (the `prototypes`
collection, in insertion order); everything a handler reads from its
environment (the clock, the freshly minted `ObjectId`, the regular-expression
engine of the database) is an explicit argument.  The methods of the controller
are pure functions over its state; the outcome of a request is an argument.

Strings are Lean `String`s; the JavaScript string methods used by the source
(`includes`, `split`, `trim`, `length`) are defined on the underlying list of
characters.
-/

namespace FigmaPortfolio

/-! ## JavaScript string methods -/

/-- The code points removed by `String.prototype.trim`: ECMAScript `WhiteSpace`
and `LineTerminator`. -/
def jsIsWhiteSpace (c : Char) : Bool :=
  c.val == 0x09 || c.val == 0x0A || c.val == 0x0B || c.val == 0x0C || c.val == 0x0D ||
  c.val == 0x20 || c.val == 0xA0 || c.val == 0x1680 ||
  (0x2000 ≤ c.val && c.val ≤ 0x200A) ||
  c.val == 0x2028 || c.val == 0x2029 || c.val == 0x202F || c.val == 0x205F ||
  c.val == 0x3000 || c.val == 0xFEFF

/-- The characters of `s.trim()`: white space dropped at both ends. -/
def trimChars (l : List Char) : List Char :=
  (l.dropWhile jsIsWhiteSpace).rdropWhile jsIsWhiteSpace

/-- The method `String.prototype.trim`. -/
def jsTrim (s : String) : String := ⟨trimChars s.data⟩

/-- The pieces of a character list around every occurrence of `sep`; there is
always at least one piece. -/
def splitChars (sep : Char) : List Char → List (List Char)
  | [] => [[]]
  | c :: cs =>
    if c = sep then [] :: splitChars sep cs
    else
      match splitChars sep cs with
      | [] => [[c]]
      | p :: ps => (c :: p) :: ps

/-- The call `s.split(sep)` for a one-character separator. -/
def jsSplit (s : String) (sep : Char) : List String :=
  (splitChars sep s.data).map String.mk

/-- The property `s.length`: the number of UTF-16 code units. -/
def jsLength (s : String) : Nat :=
  (s.data.map fun c => if c.val < 0x10000 then 1 else 2).sum

/-- Whether `pat` occurs as a contiguous block of `s`. -/
def includesChars (pat : List Char) : List Char → Bool
  | [] => pat.isEmpty
  | c :: cs => pat.isPrefixOf (c :: cs) || includesChars pat cs

/-- The call `s.includes(pat)`. -/
def jsIncludes (s pat : String) : Bool := includesChars pat.data s.data

/-- The value of a string-valued field that may be `undefined`, when it is
truthy: `undefined` and the empty string are falsy. -/
def whenTruthy : Option String → Option String
  | some s => if s.data.isEmpty then none else some s
  | none => none

/-! ## The schema -/

/-- Identifiers of stored documents (`_id`, an `ObjectId`).  `getPrototype` and
`updatePrototype` take the path parameter `req.params.id` as an identifier
already; `getPrototypeByParam` and `deletePrototype` take it as the string it
is. -/
abbrev ObjectId := Nat

/-- A document of the `Prototype` model.  `description` is absent when it was
never set; `category` is absent only when it was overwritten with `null`.
Dates are milliseconds since the epoch. -/
structure Prototype where
  _id : ObjectId
  title : String
  description : Option String
  figmaUrl : String
  category : Option String
  tags : List String
  createdAt : Nat
  updatedAt : Nat
deriving DecidableEq

/-- The collection, in insertion order. -/
abbrev Store := List Prototype

/-- The `enum` of the `category` path. -/
def categoryEnum : List String := ["mobile-app", "web-app", "website", "ui-kit", "other"]

/-- The custom validator of the `figmaUrl` path. -/
def figmaUrlValidator (v : String) : Bool :=
  jsIncludes v "figma.com" && (jsIncludes v "/proto/" || jsIncludes v "/file/")

/-- Validators of the `title` path: `required` (a non-empty string) and
`maxLength: 200`. -/
def titleValid (v : String) : Bool := 0 < jsLength v && jsLength v ≤ 200

/-- Validator of the `description` path: `maxLength: 1000`. -/
def descriptionValid (v : String) : Bool := jsLength v ≤ 1000

/-- Validators of the `figmaUrl` path: `required` and the custom validator. -/
def figmaUrlValid (v : String) : Bool := 0 < jsLength v && figmaUrlValidator v

/-- Validator of the `category` path: membership in the `enum`. -/
def categoryValid (v : String) : Bool := categoryEnum.contains v

/-- Validator of one element of the `tags` path: `maxLength: 50`. -/
def tagValid (v : String) : Bool := jsLength v ≤ 50

/-- The paths of a document on which schema validation fails; the document is
valid when there is none. -/
def invalidPaths (p : Prototype) : List String :=
  (if titleValid p.title then [] else ["title"]) ++
  (match p.description with
    | some d => if descriptionValid d then [] else ["description"]
    | none => []) ++
  (if figmaUrlValid p.figmaUrl then [] else ["figmaUrl"]) ++
  (match p.category with
    | some c => if categoryValid c then [] else ["category"]
    | none => []) ++
  (if p.tags.all tagValid then [] else ["tags"])

/-! ## Responses -/

/-- The JSON bodies the handlers send. -/
inductive Json where
  /-- A single document. -/
  | doc (p : Prototype)
  /-- An array of documents. -/
  | docs (ps : List Prototype)
  /-- The object carrying a `message` field. -/
  | message (text : String)
  /-- The object carrying an `error` field with a fixed text. -/
  | error (text : String)
  /-- The object carrying as `error` the message of a schema `ValidationError`,
  which names the failing paths. -/
  | validationError (paths : List String)
deriving DecidableEq

/-- An HTTP response: status code and JSON body. -/
structure Response where
  status : Nat
  body : Json
deriving DecidableEq

/-- The tag processing shared by the create and update handlers:
`tags ? tags.split(',').map(tag => tag.trim()).filter(tag => tag.length > 0) : []`. -/
def processTags (tags : Option String) : List String :=
  match whenTruthy tags with
  | some tags => ((jsSplit tags ',').map jsTrim).filter fun tag => 0 < jsLength tag
  | none => []

/-- The fields a create or update request may carry in its JSON body; a field
that is not sent is `undefined`. -/
structure Body where
  title : Option String
  description : Option String
  figmaUrl : Option String
  category : Option String
  tags : Option String
deriving DecidableEq

/-! ## Create -/

/-- What a create reads from its environment: the `ObjectId` minted by
`new Prototype`, the two calls of `Date.now` made for the defaults of
`createdAt` and `updatedAt`, and the call of `Date.now()` in the `pre('save')`
hook. -/
structure CreateEnv where
  oid : ObjectId
  createdAtNow : Nat
  updatedAtNow : Nat
  preSaveNow : Nat
deriving DecidableEq

/-- The document built by `new Prototype(...)`: setters (`trim`) and defaults
(`category`, `createdAt`, `updatedAt`) applied. -/
def newPrototype (env : CreateEnv) (title : String) (description : Option String)
    (figmaUrl : String) (category : Option String) (tags : List String) : Prototype where
  _id := env.oid
  title := jsTrim title
  description := description.map jsTrim
  figmaUrl := figmaUrl
  category := some (category.getD "other")
  tags := tags.map jsTrim
  createdAt := env.createdAtNow
  updatedAt := env.updatedAtNow

/-- The hook `prototypeSchema.pre('save', ...)`: `this.updatedAt = Date.now()`. -/
def preSave (env : CreateEnv) (p : Prototype) : Prototype :=
  { p with updatedAt := env.preSaveNow }

/-- Outcome of `prototype.save()`. -/
inductive SaveResult where
  /-- The document was inserted. -/
  | saved (store : Store) (p : Prototype)
  /-- Schema validation failed on the listed paths; nothing was written. -/
  | validationError (paths : List String)
  /-- The insert was refused by the unique index on `_id`. -/
  | duplicateKey
deriving DecidableEq

/-- The method `save()` on a new document: validation, then the `pre('save')`
hook, then the insert. -/
def save (env : CreateEnv) (store : Store) (p : Prototype) : SaveResult :=
  if invalidPaths p ≠ [] then .validationError (invalidPaths p)
  else
    let p₁ := preSave env p
    if store.any (fun q => q._id == p₁._id) then .duplicateKey
    else .saved (store ++ [p₁]) p₁

/-- The text sent when the guard on `title` and `figmaUrl` fails. -/
def requiredText : String := "Title and Figma URL are required"

/-- The handler `app.post('/api/prototypes')`. -/
def createPrototype (env : CreateEnv) (store : Store) (body : Body) : Store × Response :=
  match whenTruthy body.title, whenTruthy body.figmaUrl with
  | some title, some figmaUrl =>
    let processedTags := processTags body.tags
    let prototype := newPrototype env title body.description figmaUrl body.category processedTags
    match save env store prototype with
    | .saved store₁ savedPrototype => (store₁, ⟨201, .doc savedPrototype⟩)
    | .validationError paths => (store, ⟨400, .validationError paths⟩)
    | .duplicateKey => (store, ⟨500, .error "Failed to create prototype"⟩)
  | _, _ => (store, ⟨400, .error requiredText⟩)

/-! ## Read one -/

/-- The query `Prototype.findById(id)`. -/
def findById (store : Store) (id : ObjectId) : Option Prototype :=
  store.find? fun p => p._id == id

/-- The handler `app.get('/api/prototypes/:id')` for a path parameter that is
cast to `id`. -/
def getPrototype (store : Store) (id : ObjectId) : Response :=
  match findById store id with
  | none => ⟨404, .error "Prototype not found"⟩
  | some p => ⟨200, .doc p⟩

/-! ## Delete -/

/-- The query `Prototype.findByIdAndDelete(id)`: the store without the document
found, and that document; `none` when no document has the id. -/
def findByIdAndDelete (store : Store) (id : ObjectId) : Option (Store × Prototype) :=
  match findById store id with
  | none => none
  | some p => some (store.eraseP (fun q => q._id == id), p)

/-- The cast of a path parameter to an `ObjectId` made by the queries that
look a document up by id; `none` when the cast throws a `CastError`.  A string
of 24 hexadecimal digits is cast by every driver; which other strings are
accepted depends on the installed driver. -/
abbrev ObjectIdCast := String → Option ObjectId

/-- The value of a hexadecimal digit. -/
def hexDigit (c : Char) : Option Nat :=
  if '0'.toNat ≤ c.toNat ∧ c.toNat ≤ '9'.toNat then some (c.toNat - '0'.toNat)
  else if 'a'.toNat ≤ c.toNat ∧ c.toNat ≤ 'f'.toNat then some (c.toNat - 'a'.toNat + 10)
  else if 'A'.toNat ≤ c.toNat ∧ c.toNat ≤ 'F'.toNat then some (c.toNat - 'A'.toNat + 10)
  else none

/-- The number written by hexadecimal digits, continuing from `acc`; `none`
when a character is not a hexadecimal digit. -/
def hexValue (acc : Nat) : List Char → Option Nat
  | [] => some acc
  | c :: cs =>
    match hexDigit c with
    | some d => hexValue (16 * acc + d) cs
    | none => none

/-- The cast that accepts exactly the strings of 24 hexadecimal digits. -/
def hexObjectId : ObjectIdCast := fun raw =>
  if raw.data.length = 24 then hexValue 0 raw.data else none

/-- The `try` block of the delete handler once `req.params.id` has been cast to
`id`. -/
def deleteById (store : Store) (id : ObjectId) : Store × Response :=
  match findByIdAndDelete store id with
  | none => (store, ⟨404, .error "Prototype not found"⟩)
  | some (store₁, _) => (store₁, ⟨200, .message "Prototype deleted successfully"⟩)

/-- The handler `app.delete('/api/prototypes/:id')` on the path parameter
`rawId`: when the parameter cannot be cast, the query throws and the `catch`
block answers 500. -/
def deletePrototype (cast : ObjectIdCast) (store : Store) (rawId : String) :
    Store × Response :=
  match cast rawId with
  | some id => deleteById store id
  | none => (store, ⟨500, .error "Failed to delete prototype"⟩)

/-- The handler `app.get('/api/prototypes/:id')` on the path parameter `rawId`:
when the parameter cannot be cast, the query throws and the `catch` block
answers 500. -/
def getPrototypeByParam (cast : ObjectIdCast) (store : Store) (rawId : String) : Response :=
  match cast rawId with
  | some id => getPrototype store id
  | none => ⟨500, .error "Failed to fetch prototype"⟩

/-! ## Update -/

/-- What the object-document mapper does with a key of an update document whose
value is `undefined`: it either removes the key before the update is sent, so
that the stored value stays (mongoose 6 and later), or sends it, and the driver
writes `null` (mongoose 5).  Which of the two happens is a property of the
installed mapper, not of the handler. -/
inductive UndefinedKeys where
  /-- The key is removed from the update document. -/
  | stripped
  /-- The key is written as `null`. -/
  | writtenAsNull
deriving DecidableEq

/-- The update document the handler passes to `findByIdAndUpdate`. -/
structure UpdateDoc where
  title : String
  description : Option String
  figmaUrl : String
  category : Option String
  tags : List String
  updatedAt : Nat
deriving DecidableEq

/-- Casting of an update document: the `trim` setters of the schema. -/
def castUpdate (u : UpdateDoc) : UpdateDoc :=
  { u with title := jsTrim u.title, description := u.description.map jsTrim,
           tags := u.tags.map jsTrim }

/-- The paths of an update document on which the update validators
(`runValidators: true`) fail. -/
def updateInvalidPaths (u : UpdateDoc) : List String :=
  (if titleValid u.title then [] else ["title"]) ++
  (match u.description with
    | some d => if descriptionValid d then [] else ["description"]
    | none => []) ++
  (if figmaUrlValid u.figmaUrl then [] else ["figmaUrl"]) ++
  (match u.category with
    | some c => if categoryValid c then [] else ["category"]
    | none => []) ++
  (if u.tags.all tagValid then [] else ["tags"])

/-- The value of an optional path after an update that carries `new` for it. -/
def setOptional (policy : UndefinedKeys) (old new : Option String) : Option String :=
  match new, policy with
  | some v, _ => some v
  | none, .stripped => old
  | none, .writtenAsNull => none

/-- The document after the update document has been applied to it; `_id` and
`createdAt` are not keys of the update document. -/
def applyUpdate (policy : UndefinedKeys) (u : UpdateDoc) (p : Prototype) : Prototype :=
  { p with
    title := u.title
    description := setOptional policy p.description u.description
    figmaUrl := u.figmaUrl
    category := setOptional policy p.category u.category
    tags := u.tags
    updatedAt := u.updatedAt }

/-- The store after `f` has been applied to the first document with the given
`_id`. -/
def modifyFirst (id : ObjectId) (f : Prototype → Prototype) : Store → Store
  | [] => []
  | p :: ps => if p._id == id then f p :: ps else p :: modifyFirst id f ps

/-- Outcome of `findByIdAndUpdate`. -/
inductive UpdateResult where
  /-- The document was updated; with `new: true` the updated document is
  returned. -/
  | updated (store : Store) (p : Prototype)
  /-- No document has the given `_id`. -/
  | notFound
  /-- The update validators failed on the listed paths. -/
  | validationError (paths : List String)
deriving DecidableEq

/-- The query `Prototype.findByIdAndUpdate(id, update, { new: true,
runValidators: true })`: cast, validate, then update the document found. -/
def findByIdAndUpdate (policy : UndefinedKeys) (store : Store) (id : ObjectId)
    (update : UpdateDoc) : UpdateResult :=
  let u := castUpdate update
  if updateInvalidPaths u ≠ [] then .validationError (updateInvalidPaths u)
  else
    match findById store id with
    | none => .notFound
    | some p => .updated (modifyFirst id (applyUpdate policy u) store) (applyUpdate policy u p)

/-- The handler `app.put('/api/prototypes/:id')`; `now` is the value of
`new Date()`. -/
def updatePrototype (policy : UndefinedKeys) (now : Nat) (store : Store) (id : ObjectId)
    (body : Body) : Store × Response :=
  match whenTruthy body.title, whenTruthy body.figmaUrl with
  | some title, some figmaUrl =>
    let processedTags := processTags body.tags
    match findByIdAndUpdate policy store id
        ⟨title, body.description, figmaUrl, body.category, processedTags, now⟩ with
    | .updated store₁ updatedPrototype => (store₁, ⟨200, .doc updatedPrototype⟩)
    | .notFound => (store, ⟨404, .error "Prototype not found"⟩)
    | .validationError paths => (store, ⟨400, .validationError paths⟩)
  | _, _ => (store, ⟨400, .error requiredText⟩)

/-! ## List -/

/-- The regular-expression engine behind `$regex` with option `i`: compiling a
pattern fails (`none`) or yields the test "the pattern matches somewhere in the
subject". -/
abbrev RegexEngine := String → Option (String → Bool)

/-- The query parameters of the list endpoint. -/
structure Query where
  search : Option String
  category : Option String
  sortBy : Option String
deriving DecidableEq

/-- The `$or` of the search filter: the pattern matches the title, the
description, or an element of the tags. -/
def matchesSearch (test : String → Bool) (p : Prototype) : Bool :=
  test p.title ||
  (match p.description with
    | some d => test d
    | none => false) ||
  p.tags.any test

/-- The category filter `query.category = category`: exact equality; a
document without a category matches no category. -/
def matchesCategory (category : String) (p : Prototype) : Bool :=
  p.category == some category

/-- The filter built from `search` and `category`; `none` when the pattern of
the search does not compile. -/
def buildQuery (rx : RegexEngine) (q : Query) : Option (Prototype → Bool) :=
  let bySearch : Option (Prototype → Bool) :=
    match whenTruthy q.search with
    | some search => (rx search).map matchesSearch
    | none => some fun _ => true
  let byCategory : Prototype → Bool :=
    match whenTruthy q.category with
    | some category => matchesCategory category
    | none => fun _ => true
  bySearch.map fun f p => f p && byCategory p

/-- The three sort specifications of the handler. -/
inductive SortOptions where
  /-- The specification `{ createdAt: 1 }`. -/
  | createdAtAsc
  /-- The specification `{ title: 1 }`. -/
  | titleAsc
  /-- The specification `{ createdAt: -1 }`. -/
  | createdAtDesc
deriving DecidableEq

/-- The `switch (sortBy)` of the handler. -/
def sortOptions (sortBy : String) : SortOptions :=
  if sortBy = "oldest" then .createdAtAsc
  else if sortBy = "alphabetical" then .titleAsc
  else .createdAtDesc

/-- Binary comparison of strings, the default collation: lexicographic on
code points, a proper initial segment first. -/
def lexLe : List Char → List Char → Bool
  | [], _ => true
  | _ :: _, [] => false
  | a :: as, b :: bs => a.toNat < b.toNat || (a.toNat == b.toNat && lexLe as bs)

/-- Whether `a` may come before `b` under a sort specification. -/
def SortOptions.le : SortOptions → Prototype → Prototype → Bool
  | .createdAtAsc, a, b => a.createdAt ≤ b.createdAt
  | .titleAsc, a, b => lexLe a.title.data b.title.data
  | .createdAtDesc, a, b => b.createdAt ≤ a.createdAt

/-- The cursor method `.sort(sortOptions)`: documents with equal keys keep the
order of the collection. -/
def sortDocs (o : SortOptions) (docs : List Prototype) : List Prototype :=
  docs.insertionSort fun a b => o.le a b = true

/-- The handler `app.get('/api/prototypes')`; `sortBy` defaults to
`'newest'`. -/
def listPrototypes (rx : RegexEngine) (store : Store) (q : Query) : Response :=
  let sortBy := q.sortBy.getD "newest"
  match buildQuery rx q with
  | some query => ⟨200, .docs (sortDocs (sortOptions sortBy) (store.filter query))⟩
  | none => ⟨500, .error "Failed to fetch prototypes"⟩

/-! ## A fragment of the regular-expression engine -/

/-- The characters with a special meaning in a pattern. -/
def regexSpecial : List Char :=
  ['\\', '^', '$', '.', '|', '?', '*', '+', '(', ')', '[', ']', '\x7b', '\x7d']

/-- One element of a pattern of the fragment. -/
inductive Atom where
  /-- A literal character, compared without regard to case. -/
  | char (c : Char)
  /-- The dot: any character but a line feed. -/
  | any
deriving DecidableEq

/-- Patterns of the fragment: sequences of literal characters, dots and
escaped special characters.  Every other pattern is outside the fragment and
is reported as `none`. -/
def parseAtoms : List Char → Option (List Atom)
  | [] => some []
  | '.' :: cs => (parseAtoms cs).map (Atom.any :: ·)
  | '\\' :: c :: cs =>
    if c ∈ regexSpecial then (parseAtoms cs).map (Atom.char c :: ·) else none
  | c :: cs =>
    if c ∈ regexSpecial then none else (parseAtoms cs).map (Atom.char c :: ·)

/-- Whether an atom matches a character under option `i`; `fold` sends a
character to the representative of its case class. -/
def Atom.test (fold : Char → Char) : Atom → Char → Bool
  | .char c, d => fold c == fold d
  | .any, d => d != '\n'

/-- Whether the atoms match an initial segment of the subject. -/
def matchAt (fold : Char → Char) : List Atom → List Char → Bool
  | [], _ => true
  | _ :: _, [] => false
  | a :: as, d :: ds => Atom.test fold a d && matchAt fold as ds

/-- Whether the atoms match somewhere in the subject. -/
def searchAtoms (fold : Char → Char) (atoms : List Atom) : List Char → Bool
  | [] => matchAt fold atoms []
  | d :: ds => matchAt fold atoms (d :: ds) || searchAtoms fold atoms ds

/-- The engine restricted to the fragment, for a given case folding. -/
def fragmentEngine (fold : Char → Char) : RegexEngine := fun pattern =>
  (parseAtoms pattern.data).map fun atoms subject => searchAtoms fold atoms subject.data

/-- Whether `s` occurs in `t` as a substring when case is disregarded, that is,
after both have been folded. -/
def includesIgnoreCase (fold : Char → Char) (t s : String) : Bool :=
  includesChars (s.data.map fold) (t.data.map fold)

/-- The reading of the search filter as a substring test: `s` occurs, case
disregarded, in the title, in the description, or in one of the tags. -/
def occursInRecord (fold : Char → Char) (s : String) (p : Prototype) : Bool :=
  includesIgnoreCase fold p.title s ||
  (match p.description with
    | some d => includesIgnoreCase fold d s
    | none => false) ||
  p.tags.any fun tag => includesIgnoreCase fold tag s

/-- A record titled "UI Kit" with no description and no tags. -/
def uiKit : Prototype :=
  ⟨1, "UI Kit", none, "https://www.figma.com/file/abc", some "ui-kit", [], 5, 5⟩

/-- A record with a description and a tag. -/
def described : Prototype :=
  ⟨2, "Shop", some "Old text", "https://www.figma.com/proto/xyz", some "website", ["x"], 6, 6⟩

/-! ## The catalogue controller (`js/app.js`)

The state of a `PrototypeManager` is its two fields together with the part of
the document it writes and reads back: the `active` class of the two modals,
the values of the form fields, the `src` of the preview frame and the
empty-state element.  Texts that are only displayed are left out. -/

/-- The call `s.replace(pat, rep)` for a string pattern and a replacement
without `$`: the first occurrence of `pat` is replaced. -/
def replaceFirstChars (pat rep : List Char) : List Char → List Char
  | [] => if pat.isEmpty then rep else []
  | c :: cs =>
    if pat.isPrefixOf (c :: cs) then rep ++ (c :: cs).drop pat.length
    else c :: replaceFirstChars pat rep cs

/-- The method `String.prototype.replace` on strings. -/
def jsReplace (s pat rep : String) : String :=
  ⟨replaceFirstChars pat.data rep.data s.data⟩

/-- The method `Array.prototype.join`. -/
def jsJoin (xs : List String) (sep : String) : String :=
  ⟨sep.data.intercalate (xs.map String.data)⟩

/-- The values of the fields of `prototypeForm`. -/
structure Form where
  prototypeTitle : String
  prototypeDescription : String
  figmaUrl : String
  prototypeCategory : String
  prototypeTags : String
deriving DecidableEq

/-- The element `emptyState`: hidden, or displayed with a heading and a text. -/
inductive EmptyState where
  /-- The style `display: none`. -/
  | hidden
  /-- The style `display: block`, with the contents of `h3` and `p`. -/
  | shown (heading : String) (text : String)
deriving DecidableEq

/-- The state of the controller. -/
structure PrototypeManager where
  prototypes : List Prototype
  currentEditId : Option ObjectId
  prototypeModalActive : Bool
  detailModalActive : Bool
  form : Form
  figmaFrameSrc : String
  emptyState : EmptyState
deriving DecidableEq

/-- The method `isValidFigmaUrl`. -/
def PrototypeManager.isValidFigmaUrl (url : String) : Bool :=
  jsIncludes url "figma.com" && (jsIncludes url "/proto/" || jsIncludes url "/file/")

/-- The method `convertToEmbedUrl`. -/
def PrototypeManager.convertToEmbedUrl (figmaUrl : String) : String :=
  if jsIncludes figmaUrl "/proto/" then
    jsReplace figmaUrl "/proto/" "/embed?embed_host=share&url=" ++ "&chrome=DOCUMENTATION"
  else if jsIncludes figmaUrl "/file/" then
    jsReplace figmaUrl "/file/" "/embed?embed_host=share&url=" ++ "&chrome=DOCUMENTATION"
  else figmaUrl

/-- The method `openAddModal`; `initial` holds the values `reset()` gives the
form fields. -/
def PrototypeManager.openAddModal (initial : Form) (pm : PrototypeManager) :
    PrototypeManager :=
  { pm with currentEditId := none, form := initial, prototypeModalActive := true }

/-- The method `openEditModal`; the argument is an id or `null`.  A missing
description or category shows as the empty string. -/
def PrototypeManager.openEditModal (id : Option ObjectId) (pm : PrototypeManager) :
    PrototypeManager :=
  match pm.prototypes.find? fun p => some p._id == id with
  | none => pm
  | some prototype =>
    { pm with
      currentEditId := id
      form := ⟨prototype.title, prototype.description.getD "", prototype.figmaUrl,
        prototype.category.getD "", jsJoin prototype.tags ", "⟩
      prototypeModalActive := true }

/-- The method `closeModal`. -/
def PrototypeManager.closeModal (pm : PrototypeManager) : PrototypeManager :=
  { pm with prototypeModalActive := false, currentEditId := none }

/-- The method `openDetailModal`; the argument is an id or `null`. -/
def PrototypeManager.openDetailModal (id : Option ObjectId) (pm : PrototypeManager) :
    PrototypeManager :=
  match pm.prototypes.find? fun p => some p._id == id with
  | none => pm
  | some prototype =>
    { pm with
      currentEditId := id
      figmaFrameSrc := PrototypeManager.convertToEmbedUrl prototype.figmaUrl
      detailModalActive := true }

/-- The method `closeDetailModal`. -/
def PrototypeManager.closeDetailModal (pm : PrototypeManager) : PrototypeManager :=
  { pm with detailModalActive := false, figmaFrameSrc := "", currentEditId := none }

/-- The `keydown` listener of `bindEvents` for the key `Escape`. -/
def PrototypeManager.escapeKey (pm : PrototypeManager) : PrototypeManager :=
  (pm.closeModal).closeDetailModal

/-- The global function `editPrototype`: when `currentEditId` is truthy, the
detail modal is closed, and then `openEditModal` is called with the value
`currentEditId` has at that moment. -/
def editPrototype (pm : PrototypeManager) : PrototypeManager :=
  match pm.currentEditId with
  | some _ =>
    let pm₁ := pm.closeDetailModal
    pm₁.openEditModal pm₁.currentEditId
  | none => pm

/-- The method `getFilteredPrototypes`: a copy of `this.prototypes`. -/
def PrototypeManager.getFilteredPrototypes (pm : PrototypeManager) : List Prototype :=
  pm.prototypes

/-- The method `updateEmptyState`. -/
def PrototypeManager.updateEmptyState (pm : PrototypeManager) : PrototypeManager :=
  let hasPrototypes := decide (0 < pm.prototypes.length)
  let hasFilteredResults := decide (0 < pm.getFilteredPrototypes.length)
  if !hasPrototypes then
    { pm with emptyState := (.shown "No prototypes yet"
        "Start building your design portfolio by adding your first Figma prototype!") }
  else if !hasFilteredResults then
    { pm with emptyState := (.shown "No matching prototypes"
        "Try adjusting your search or filter criteria.") }
  else { pm with emptyState := .hidden }

/-- What the `fetch` of the list endpoint yields in `loadPrototypes`: a
response with the `ok` flag and the array it carries, a response without the
`ok` flag, or a rejected promise. -/
inductive Fetched where
  /-- A response with `response.ok`, and the value of `response.json()`. -/
  | ok (docs : List Prototype)
  /-- A response whose status is outside 200 to 299. -/
  | notOk
  /-- The request failed. -/
  | rejected
deriving DecidableEq

/-- The method `loadPrototypes`: the list of a successful fetch replaces
`this.prototypes`; the `catch` block sets it to `[]`. -/
def PrototypeManager.loadPrototypes (fetched : Fetched) (pm : PrototypeManager) :
    PrototypeManager :=
  match fetched with
  | .ok docs => { pm with prototypes := docs }
  | .notOk => { pm with prototypes := [] }
  | .rejected => { pm with prototypes := [] }

/-- The values of the three filter inputs; `undefined` when the element is
missing. -/
structure FilterInputs where
  searchInput : Option String
  categoryFilter : Option String
  sortBy : Option String
deriving DecidableEq

/-- The `searchParams` built by `loadPrototypes`: a parameter is appended when
the value of its input is truthy. -/
def searchParams (inputs : FilterInputs) : Query :=
  ⟨whenTruthy inputs.searchInput, whenTruthy inputs.categoryFilter, whenTruthy inputs.sortBy⟩

/-- The outcome of the fetch when the request reaches the list handler and its
response comes back. -/
def fetchPrototypes (rx : RegexEngine) (store : Store) (inputs : FilterInputs) : Fetched :=
  match listPrototypes rx store (searchParams inputs) with
  | ⟨200, .docs docs⟩ => .ok docs
  | _ => .notOk

/-- The method `filterPrototypes`: load, render, update the empty state. -/
def PrototypeManager.filterPrototypes (fetched : Fetched) (pm : PrototypeManager) :
    PrototypeManager :=
  (pm.loadPrototypes fetched).updateEmptyState

/-- The method `addPrototype`; `saved` tells whether `savePrototype` resolved.
The second component tells whether the method threw. -/
def PrototypeManager.addPrototype (saved : Bool) (fetched : Fetched)
    (pm : PrototypeManager) : PrototypeManager × Bool :=
  if saved then ((pm.loadPrototypes fetched).updateEmptyState, false) else (pm, true)

/-- The method `updatePrototype`; `updated` tells whether `updatePrototypeAPI`
resolved.  The second component tells whether the method threw. -/
def PrototypeManager.updatePrototype (updated : Bool) (fetched : Fetched)
    (pm : PrototypeManager) : PrototypeManager × Bool :=
  if updated then (pm.loadPrototypes fetched, false) else (pm, true)

/-- The method `deletePrototype`; `confirmed` is the answer to `confirm`,
`deleted` tells whether `deletePrototypeAPI` resolved. -/
def PrototypeManager.deletePrototype (confirmed deleted : Bool) (fetched : Fetched)
    (pm : PrototypeManager) : PrototypeManager :=
  if confirmed then
    if deleted then ((pm.loadPrototypes fetched).updateEmptyState).closeDetailModal else pm
  else pm

/-- The object `prototypeData` built by `handleFormSubmit` from the form. -/
def PrototypeManager.prototypeData (pm : PrototypeManager) : Body :=
  ⟨some (jsTrim pm.form.prototypeTitle), some (jsTrim pm.form.prototypeDescription),
   some (jsTrim pm.form.figmaUrl), some pm.form.prototypeCategory,
   some pm.form.prototypeTags⟩

/-- The steps of the modal layer. -/
inductive ModalStep where
  /-- The call `openAddModal()`. -/
  | openAddModal
  /-- The call `openEditModal(id)`. -/
  | openEditModal (id : ObjectId)
  /-- The call `closeModal()`. -/
  | closeModal
  /-- The call `openDetailModal(id)`. -/
  | openDetailModal (id : ObjectId)
  /-- The call `closeDetailModal()`. -/
  | closeDetailModal
  /-- The key `Escape`. -/
  | escapeKey
deriving DecidableEq

/-- One step of the modal layer. -/
def ModalStep.apply (initial : Form) : ModalStep → PrototypeManager → PrototypeManager
  | .openAddModal, pm => pm.openAddModal initial
  | .openEditModal id, pm => pm.openEditModal (some id)
  | .closeModal, pm => pm.closeModal
  | .openDetailModal id, pm => pm.openDetailModal (some id)
  | .closeDetailModal, pm => pm.closeDetailModal
  | .escapeKey, pm => pm.escapeKey

/-- A sequence of steps, from left to right. -/
def runSteps (initial : Form) (steps : List ModalStep) (pm : PrototypeManager) :
    PrototypeManager :=
  steps.foldl (fun st step => step.apply initial st) pm

/-- Whether, along a sequence of steps, a step that opens one modal is taken
only while the other modal is closed. -/
def opensWhileOtherClosed (initial : Form) : List ModalStep → PrototypeManager → Bool
  | [], _ => true
  | step :: rest, pm =>
    (match step with
      | .openAddModal => !pm.detailModalActive
      | .openEditModal _ => !pm.detailModalActive
      | .openDetailModal _ => !pm.prototypeModalActive
      | _ => true) &&
    opensWhileOtherClosed initial rest (step.apply initial pm)

/-- A form with empty text fields, as a sample of what `reset()` restores. -/
def blankForm : Form := ⟨"", "", "", "other", ""⟩

/-- The controller after construction: no items, no target, both modals
closed. -/
def initialManager : PrototypeManager :=
  ⟨[], none, false, false, blankForm, "", .hidden⟩

/-- The reading of "contains": `pat` occurs in `u` between some `a` and some
`b`. -/
def Contains (u pat : String) : Prop := ∃ a b : String, u = a ++ pat ++ b

/-- The reading of "the first occurrence": `u` is `pre`, then `pat`, then
`post`, and `pat` does not occur in `u` at an earlier position. -/
def FirstOccurrence (u pat pre post : String) : Prop :=
  u = pre ++ pat ++ post ∧
  ∀ pre₁ post₁ : String, u = pre₁ ++ pat ++ post₁ → pre.length ≤ pre₁.length

/-- The reading of "no leading or trailing whitespace": neither the first nor
the last character is white space. -/
def NoSurroundingWhiteSpace (t : String) : Prop :=
  (∀ c, t.data.head? = some c → jsIsWhiteSpace c = false) ∧
  (∀ c, t.data.getLast? = some c → jsIsWhiteSpace c = false)

/-- The shape of a clean tag: not empty, no white space at either end, no
comma. -/
def CleanTag (t : String) : Prop :=
  t ≠ "" ∧ NoSurroundingWhiteSpace t ∧ ',' ∉ t.data

/-- The reading of "otherwise valid" for a create: the guard on title and
link passes, the validators of every path but `category` accept the document
that is built, and the minted id is not in the store. -/
def OtherwiseValid (env : CreateEnv) (store : Store) (body : Body) : Prop :=
  ∃ title figmaUrl,
    whenTruthy body.title = some title ∧ whenTruthy body.figmaUrl = some figmaUrl ∧
    titleValid (jsTrim title) = true ∧
    (∀ d, body.description = some d → descriptionValid (jsTrim d) = true) ∧
    figmaUrlValid figmaUrl = true ∧
    (∀ t ∈ processTags body.tags, tagValid t = true) ∧
    (∀ q ∈ store, q._id ≠ env.oid)

/-! ## String lemmas -/

theorem dropWhile_rdropWhile_fixed (p : Char → Bool) (m : List Char)
    (hm : m.dropWhile p = m) : (m.rdropWhile p).dropWhile p = m.rdropWhile p := by
  obtain ⟨t, ht⟩ := List.rdropWhile_prefix p m
  cases hr : m.rdropWhile p with
  | nil => rfl
  | cons a r =>
    rw [hr] at ht
    subst ht
    have ha : p a = false := by
      by_contra hpa
      simp only [Bool.not_eq_false] at hpa
      have h1 : (a :: (r ++ t)).dropWhile p = (r ++ t).dropWhile p := by
        simp [List.dropWhile_cons, hpa]
      rw [List.cons_append, h1] at hm
      have hlen := congrArg List.length hm
      have hle := (List.dropWhile_sublist p (l := r ++ t)).length_le
      rw [List.length_cons] at hlen
      omega
    simp [List.dropWhile_cons, ha]

theorem trimChars_idem (l : List Char) : trimChars (trimChars l) = trimChars l := by
  unfold trimChars
  rw [dropWhile_rdropWhile_fixed jsIsWhiteSpace _ (List.dropWhile_idempotent ..),
    List.rdropWhile_idempotent]

theorem jsTrim_idem (s : String) : jsTrim (jsTrim s) = jsTrim s := by
  simp [jsTrim, trimChars_idem]

theorem jsLength_pos_iff (s : String) : 0 < jsLength s ↔ s ≠ "" := by
  obtain ⟨l⟩ := s
  cases l with
  | nil => simp [jsLength]
  | cons c cs =>
    have : (⟨c :: cs⟩ : String) ≠ "" := by
      intro h
      have := congrArg String.data h
      simp at this
    simp only [jsLength, List.map_cons, List.sum_cons, ne_eq, this, not_false_eq_true, iff_true]
    split <;> omega

theorem splitChars_ne_nil (sep : Char) (l : List Char) : splitChars sep l ≠ [] := by
  cases l with
  | nil => simp [splitChars]
  | cons c cs =>
    unfold splitChars
    split
    · simp
    · split <;> simp

theorem intercalate_splitChars (sep : Char) (l : List Char) :
    [sep].intercalate (splitChars sep l) = l := by
  induction l with
  | nil => rfl
  | cons c cs ih =>
    have hne := splitChars_ne_nil sep cs
    unfold splitChars
    cases hs : splitChars sep cs with
    | nil => exact absurd hs hne
    | cons p ps =>
      rw [hs] at ih
      split
      · rename_i h
        subst h
        simp [List.intercalate] at ih ⊢
        exact ih
      · cases ps <;> simp_all [List.intercalate]

theorem not_mem_splitChars (sep : Char) (l : List Char) :
    ∀ piece ∈ splitChars sep l, sep ∉ piece := by
  induction l with
  | nil => simp [splitChars]
  | cons c cs ih =>
    unfold splitChars
    split
    · simpa using ih
    · rename_i hne
      cases hs : splitChars sep cs with
      | nil => simp; exact fun h => hne h.symm
      | cons p ps =>
        rw [hs] at ih
        simp only [List.mem_cons, forall_eq_or_imp] at ih ⊢
        refine ⟨?_, ih.2⟩
        simp only [List.mem_cons, not_or]
        exact ⟨fun h => hne h.symm, ih.1⟩

/-! ## Create: rejection and tag processing -/

theorem whenTruthy_eq_none_iff (o : Option String) :
    whenTruthy o = none ↔ o = none ∨ o = some "" := by
  cases o with
  | none => simp [whenTruthy]
  | some s =>
    obtain ⟨l⟩ := s
    cases l with
    | nil => simp [whenTruthy]
    | cons c cs =>
      have : (⟨c :: cs⟩ : String) ≠ "" := by
        intro h
        have := congrArg String.data h
        simp at this
      simp [whenTruthy, this]

theorem whenTruthy_eq_some {o : Option String} {s : String} (h : whenTruthy o = some s) :
    o = some s ∧ s ≠ "" := by
  cases o with
  | none => simp [whenTruthy] at h
  | some t =>
    simp only [whenTruthy] at h
    split at h
    · simp at h
    · rename_i hne
      simp only [Option.some.injEq] at h
      subst h
      refine ⟨rfl, ?_⟩
      intro h0
      rw [h0] at hne
      simp at hne

theorem save_invalid_figmaUrl (env : CreateEnv) (store : Store) (p : Prototype)
    (h : figmaUrlValidator p.figmaUrl = false) :
    save env store p = .validationError (invalidPaths p) := by
  have hmem : "figmaUrl" ∈ invalidPaths p := by
    simp [invalidPaths, figmaUrlValid, h]
  have hne : invalidPaths p ≠ [] := List.ne_nil_of_mem hmem
  simp [save, hne]

/-- C1: a create whose title is missing or empty, whose link is missing or
empty, or whose link does not contain `figma.com` together with `/proto/` or
`/file/`, is answered with status 400 and an error body, and the store is left
as it was. -/
theorem create_rejects_invalid (env : CreateEnv) (store : Store) (body : Body)
    (h : body.title = none ∨ body.title = some "" ∨
      body.figmaUrl = none ∨ body.figmaUrl = some "" ∨
      ∃ u, body.figmaUrl = some u ∧
        ¬(jsIncludes u "figma.com" = true ∧
          (jsIncludes u "/proto/" = true ∨ jsIncludes u "/file/" = true))) :
    (createPrototype env store body).2.status = 400 ∧
    ((createPrototype env store body).2.body = .error requiredText ∨
      ∃ paths, (createPrototype env store body).2.body = .validationError paths) ∧
    (createPrototype env store body).1 = store := by
  unfold createPrototype
  cases ht : whenTruthy body.title with
  | none => simp
  | some title =>
    cases hf : whenTruthy body.figmaUrl with
    | none => simp
    | some figmaUrl =>
      obtain ⟨ht1, ht2⟩ := whenTruthy_eq_some ht
      obtain ⟨hf1, hf2⟩ := whenTruthy_eq_some hf
      have hbad : figmaUrlValidator figmaUrl = false := by
        rcases h with h | h | h | h | ⟨u, hu, hnot⟩
        · rw [ht1] at h; simp at h
        · rw [ht1] at h; simp only [Option.some.injEq] at h; exact absurd h ht2
        · rw [hf1] at h; simp at h
        · rw [hf1] at h; simp only [Option.some.injEq] at h; exact absurd h hf2
        · rw [hf1] at hu
          simp only [Option.some.injEq] at hu
          subst hu
          simp only [figmaUrlValidator]
          by_contra hc
          apply hnot
          simp only [Bool.not_eq_false, Bool.and_eq_true, Bool.or_eq_true] at hc
          exact hc
      simp only []
      rw [save_invalid_figmaUrl env store _ (by simpa [newPrototype] using hbad)]
      simp

/-- C1, the two requests of the specification: an empty title, and a link
without the host marker. -/
theorem create_rejects_invalid_witness :
    ((createPrototype ⟨7, 10, 10, 11⟩ []
        ⟨some "", none, some "https://figma.com/file/abc", none, none⟩).2.status = 400 ∧
      ((createPrototype ⟨7, 10, 10, 11⟩ []
          ⟨some "", none, some "https://figma.com/file/abc", none, none⟩).2.body
            = .error requiredText ∨
        ∃ paths, (createPrototype ⟨7, 10, 10, 11⟩ []
          ⟨some "", none, some "https://figma.com/file/abc", none, none⟩).2.body
            = .validationError paths) ∧
      (createPrototype ⟨7, 10, 10, 11⟩ []
        ⟨some "", none, some "https://figma.com/file/abc", none, none⟩).1 = []) ∧
    (createPrototype ⟨7, 10, 10, 11⟩ []
        ⟨some "X", none, some "https://example.com/file/abc", none, none⟩).2
      = ⟨400, .validationError ["figmaUrl"]⟩ :=
  ⟨create_rejects_invalid _ _ _ (Or.inr (Or.inl rfl)), by decide⟩

theorem save_invalid (env : CreateEnv) (store : Store) (p : Prototype)
    (h : invalidPaths p ≠ []) : save env store p = .validationError (invalidPaths p) := by
  simp [save, h]

theorem save_duplicate (env : CreateEnv) (store : Store) (p : Prototype)
    (hv : invalidPaths p = []) (hd : store.any (fun q => q._id == p._id) = true) :
    save env store p = .duplicateKey := by
  have hd1 : store.any (fun q => q._id == (preSave env p)._id) = true := hd
  simp only [save, hv, ne_eq, not_true_eq_false, ↓reduceIte, hd1]

theorem save_saved (env : CreateEnv) (store : Store) (p : Prototype)
    (hv : invalidPaths p = []) (hd : store.any (fun q => q._id == p._id) = false) :
    save env store p = .saved (store ++ [preSave env p]) (preSave env p) := by
  have hd1 : store.any (fun q => q._id == (preSave env p)._id) = false := hd
  simp only [save, hv, ne_eq, not_true_eq_false, ↓reduceIte, hd1, Bool.false_eq_true]

/-- Inversion of a successful create: what the handler did when it answered
201. -/
theorem create_created {env : CreateEnv} {store store₁ : Store} {body : Body} {p : Prototype}
    (h : createPrototype env store body = (store₁, ⟨201, .doc p⟩)) :
    ∃ title figmaUrl,
      whenTruthy body.title = some title ∧ whenTruthy body.figmaUrl = some figmaUrl ∧
      invalidPaths (newPrototype env title body.description figmaUrl body.category
        (processTags body.tags)) = [] ∧
      store.any (fun q => q._id == env.oid) = false ∧
      p = preSave env (newPrototype env title body.description figmaUrl body.category
        (processTags body.tags)) ∧
      store₁ = store ++ [p] := by
  unfold createPrototype at h
  cases ht : whenTruthy body.title with
  | none => rw [ht] at h; simp at h
  | some title =>
    cases hf : whenTruthy body.figmaUrl with
    | none => rw [ht, hf] at h; simp at h
    | some figmaUrl =>
      rw [ht, hf] at h
      simp only [] at h
      refine ⟨title, figmaUrl, rfl, rfl, ?_⟩
      by_cases hv : invalidPaths (newPrototype env title body.description figmaUrl
          body.category (processTags body.tags)) = []
      · by_cases hd : store.any (fun q => q._id == env.oid) = true
        · rw [save_duplicate env store _ hv hd] at h
          simp at h
        · simp only [Bool.not_eq_true] at hd
          rw [save_saved env store _ hv hd] at h
          simp only [Prod.mk.injEq, Response.mk.injEq, Json.doc.injEq, true_and] at h
          obtain ⟨h1, h2⟩ := h
          exact ⟨hv, hd, h2.symm, by rw [← h1, h2]⟩
      · rw [save_invalid env store _ hv] at h
        simp at h

/-- A create with truthy title and link, a valid document and a fresh
`ObjectId` is answered 201 with the saved document, appended to the store. -/
theorem create_succeeds (env : CreateEnv) (store : Store) (body : Body) (title figmaUrl : String)
    (ht : whenTruthy body.title = some title) (hf : whenTruthy body.figmaUrl = some figmaUrl)
    (hv : invalidPaths (newPrototype env title body.description figmaUrl body.category
        (processTags body.tags)) = [])
    (hd : store.any (fun q => q._id == env.oid) = false) :
    createPrototype env store body =
      (store ++ [preSave env (newPrototype env title body.description figmaUrl body.category
        (processTags body.tags))],
       ⟨201, .doc (preSave env (newPrototype env title body.description figmaUrl body.category
        (processTags body.tags)))⟩) := by
  unfold createPrototype
  rw [ht, hf]
  simp only []
  rw [save_saved env store _ hv hd]

theorem processTags_some (raw : String) :
    processTags (some raw) =
      ((jsSplit raw ',').map jsTrim).filter fun t => decide (t ≠ "") := by
  have hfilter : ∀ l : List String,
      (l.filter fun tag => decide (0 < jsLength tag)) = l.filter fun t => decide (t ≠ "") := by
    intro l
    congr 1
    funext t
    simp only [jsLength_pos_iff]
  cases h : whenTruthy (some raw) with
  | none =>
    rcases (whenTruthy_eq_none_iff _).1 h with h0 | h0
    · simp at h0
    · simp only [Option.some.injEq] at h0
      subst h0
      decide
  | some t =>
    obtain ⟨h1, _⟩ := whenTruthy_eq_some h
    simp only [Option.some.injEq] at h1
    subst h1
    simp only [processTags, h, hfilter]

theorem processTags_trimmed (tags : Option String) :
    (processTags tags).map jsTrim = processTags tags := by
  cases tags with
  | none => simp [processTags, whenTruthy]
  | some raw =>
    rw [processTags_some]
    have : ∀ t ∈ ((jsSplit raw ',').map jsTrim).filter (fun t => decide (t ≠ "")),
        jsTrim t = t := by
      intro t ht
      obtain ⟨x, _, hx⟩ := List.mem_map.1 (List.mem_filter.1 ht).1
      rw [← hx, jsTrim_idem]
    calc List.map jsTrim _ = List.map id _ := List.map_congr_left this
      _ = _ := List.map_id _

/-- C2: the tags stored by an accepted create are the comma-separated pieces of
the raw tag string, each trimmed, the empty ones dropped, in order and with
repetitions kept; `"a, b ,, c"` is stored as `["a", "b", "c"]`, and an omitted or
empty tag string as the empty list. -/
theorem create_stores_split_tags (env : CreateEnv) (store store₁ : Store) (body : Body)
    (p : Prototype) (h : createPrototype env store body = (store₁, ⟨201, .doc p⟩)) :
    (∀ raw, body.tags = some raw →
      ∃ pieces : List String,
        [','].intercalate (pieces.map String.data) = raw.data ∧
        (∀ piece ∈ pieces, ',' ∉ piece.data) ∧
        p.tags = (pieces.map jsTrim).filter fun t => decide (t ≠ "")) ∧
    (body.tags = some "a, b ,, c" → p.tags = ["a", "b", "c"]) ∧
    (body.tags = none ∨ body.tags = some "" → p.tags = []) := by
  obtain ⟨title, figmaUrl, _, _, _, _, hp, _⟩ := create_created h
  have htags : p.tags = processTags body.tags := by
    rw [hp]
    simp only [preSave, newPrototype]
    exact processTags_trimmed _
  refine ⟨?_, ?_, ?_⟩
  · intro raw hraw
    refine ⟨jsSplit raw ',', ?_, ?_, ?_⟩
    · simp only [jsSplit, List.map_map]
      have : (String.data ∘ String.mk) = id := rfl
      rw [this, List.map_id, intercalate_splitChars]
    · intro piece hpiece
      simp only [jsSplit, List.mem_map] at hpiece
      obtain ⟨l, hl, rfl⟩ := hpiece
      exact not_mem_splitChars ',' raw.data l hl
    · rw [htags, hraw, processTags_some]
  · intro hraw
    rw [htags, hraw]
    decide
  · rintro (hraw | hraw) <;> rw [htags, hraw] <;> decide

/-- C2 at the request of the specification: the create is answered 201 and the
stored tags are `["a", "b", "c"]`. -/
theorem create_stores_split_tags_witness :
    createPrototype ⟨7, 10, 10, 11⟩ []
        ⟨some "X", none, some "https://figma.com/file/abc", none, some "a, b ,, c"⟩
      = ([⟨7, "X", none, "https://figma.com/file/abc", some "other", ["a", "b", "c"], 10, 11⟩],
         ⟨201, .doc
          ⟨7, "X", none, "https://figma.com/file/abc", some "other", ["a", "b", "c"], 10, 11⟩⟩) ∧
    (⟨7, "X", none, "https://figma.com/file/abc", some "other", ["a", "b", "c"], 10, 11⟩
      : Prototype).tags = ["a", "b", "c"] :=
  ⟨by decide,
   (create_stores_split_tags ⟨7, 10, 10, 11⟩ []
      [⟨7, "X", none, "https://figma.com/file/abc", some "other", ["a", "b", "c"], 10, 11⟩]
      ⟨some "X", none, some "https://figma.com/file/abc", none, some "a, b ,, c"⟩
      ⟨7, "X", none, "https://figma.com/file/abc", some "other", ["a", "b", "c"], 10, 11⟩
      (by decide)).2.1 rfl⟩

/-! ## List: ordering -/

theorem char_lt_iff (a b : Char) : a < b ↔ a.toNat < b.toNat := by
  rw [Char.lt_def]
  exact Iff.rfl

theorem char_eq_of_toNat (a b : Char) (h : a.toNat = b.toNat) : a = b :=
  Char.ext (UInt32.ext (by simpa [Char.toNat] using h))

theorem lexLe_iff_not_lex (l₁ l₂ : List Char) :
    lexLe l₁ l₂ = true ↔ ¬ List.Lex (fun x y : Char => x < y) l₂ l₁ := by
  induction l₁ generalizing l₂ with
  | nil => simp [lexLe, List.Lex.not_nil_right]
  | cons a as ih =>
    cases l₂ with
    | nil => simp [lexLe, List.Lex.nil]
    | cons b bs =>
      simp only [lexLe, Bool.or_eq_true, decide_eq_true_eq, Bool.and_eq_true, beq_iff_eq, ih bs]
      constructor
      · rintro (hlt | ⟨heq, hrest⟩) hlex
        · cases hlex with
          | cons h => omega
          | rel h => rw [char_lt_iff] at h; omega
        · cases hlex with
          | cons h => exact hrest h
          | rel h => rw [char_lt_iff] at h; omega
      · intro hnot
        rcases Nat.lt_trichotomy a.toNat b.toNat with hlt | heq | hgt
        · exact Or.inl hlt
        · refine Or.inr ⟨heq, fun hlex => hnot ?_⟩
          have := char_eq_of_toNat a b heq
          subst this
          exact List.Lex.cons hlex
        · exact absurd (List.Lex.rel ((char_lt_iff b a).2 hgt)) hnot

theorem lexLe_iff_le (l₁ l₂ : List Char) : lexLe l₁ l₂ = true ↔ l₁ ≤ l₂ := by
  rw [lexLe_iff_not_lex, ← not_lt]
  exact Iff.rfl

theorem lexLe_data_iff (s t : String) : lexLe s.data t.data = true ↔ s ≤ t := by
  rw [lexLe_iff_le, String.le_iff_toList_le]
  exact Iff.rfl

theorem SortOptions.le_isTotal (o : SortOptions) (a b : Prototype) :
    o.le a b = true ∨ o.le b a = true := by
  cases o
  · simpa [SortOptions.le] using Nat.le_total a.createdAt b.createdAt
  · simpa [SortOptions.le, lexLe_iff_le] using le_total a.title.data b.title.data
  · simpa [SortOptions.le] using Nat.le_total b.createdAt a.createdAt

theorem SortOptions.le_isTrans (o : SortOptions) (a b c : Prototype)
    (hab : o.le a b = true) (hbc : o.le b c = true) : o.le a c = true := by
  cases o
  · simp only [SortOptions.le, decide_eq_true_eq] at *
    omega
  · simp only [SortOptions.le, lexLe_iff_le] at *
    exact le_trans hab hbc
  · simp only [SortOptions.le, decide_eq_true_eq] at *
    omega

theorem sortDocs_sorted (o : SortOptions) (docs : List Prototype) :
    (sortDocs o docs).Pairwise fun a b => o.le a b = true := by
  haveI : IsTotal Prototype (fun a b => o.le a b = true) := ⟨o.le_isTotal⟩
  haveI : IsTrans Prototype (fun a b => o.le a b = true) := ⟨o.le_isTrans⟩
  exact List.sorted_insertionSort _ docs

/-- Inversion of a successful list: the documents sent are the sorted matches
of the filter. -/
theorem list_docs {rx : RegexEngine} {store : Store} {q : Query} {docs : List Prototype}
    (h : listPrototypes rx store q = ⟨200, .docs docs⟩) :
    ∃ query, buildQuery rx q = some query ∧
      docs = sortDocs (sortOptions (q.sortBy.getD "newest")) (store.filter query) := by
  unfold listPrototypes at h
  cases hq : buildQuery rx q with
  | none => rw [hq] at h; simp at h
  | some query =>
    rw [hq] at h
    simp only [Response.mk.injEq, Json.docs.injEq, true_and] at h
    exact ⟨query, rfl, h.symm⟩

/-- C3: the list sent is ordered as `sortBy` asks: titles non-decreasing for
`alphabetical`, `createdAt` non-decreasing for `oldest`, and `createdAt`
non-increasing in every other case (`newest`, `sortBy` omitted, or a value that
is not recognised). -/
theorem list_ordered (rx : RegexEngine) (store : Store) (q : Query) (docs : List Prototype)
    (h : listPrototypes rx store q = ⟨200, .docs docs⟩) :
    (q.sortBy = some "alphabetical" → docs.Pairwise fun a b => a.title ≤ b.title) ∧
    (q.sortBy = some "oldest" → docs.Pairwise fun a b => a.createdAt ≤ b.createdAt) ∧
    (q.sortBy ≠ some "alphabetical" → q.sortBy ≠ some "oldest" →
      docs.Pairwise fun a b => b.createdAt ≤ a.createdAt) := by
  obtain ⟨query, _, hdocs⟩ := list_docs h
  subst hdocs
  refine ⟨?_, ?_, ?_⟩
  · intro hs
    have := sortDocs_sorted (sortOptions (q.sortBy.getD "newest")) (store.filter query)
    rw [hs] at this ⊢
    refine this.imp ?_
    intro a b hab
    exact (lexLe_data_iff _ _).1 hab
  · intro hs
    have := sortDocs_sorted (sortOptions (q.sortBy.getD "newest")) (store.filter query)
    rw [hs] at this ⊢
    refine this.imp ?_
    intro a b hab
    simpa [sortOptions, SortOptions.le] using hab
  · intro h1 h2
    have := sortDocs_sorted (sortOptions (q.sortBy.getD "newest")) (store.filter query)
    have hopt : sortOptions (q.sortBy.getD "newest") = .createdAtDesc := by
      cases hs : q.sortBy with
      | none => decide
      | some s =>
        rw [hs] at h1 h2
        simp only [ne_eq, Option.some.injEq] at h1 h2
        simp [sortOptions, h1, h2]
    rw [hopt] at this ⊢
    refine this.imp ?_
    intro a b hab
    simpa [SortOptions.le] using hab

/-- C3 on a store of two documents sorted alphabetically. -/
theorem list_ordered_witness :
    listPrototypes (fragmentEngine Char.toLower)
        [⟨1, "b", none, "https://figma.com/file/x", some "other", [], 1, 1⟩,
         ⟨2, "a", none, "https://figma.com/file/y", some "other", [], 2, 2⟩]
        ⟨none, none, some "alphabetical"⟩
      = ⟨200, .docs
        [⟨2, "a", none, "https://figma.com/file/y", some "other", [], 2, 2⟩,
         ⟨1, "b", none, "https://figma.com/file/x", some "other", [], 1, 1⟩]⟩ ∧
    List.Pairwise (fun a b : Prototype => a.title ≤ b.title)
        [⟨2, "a", none, "https://figma.com/file/y", some "other", [], 2, 2⟩,
         ⟨1, "b", none, "https://figma.com/file/x", some "other", [], 1, 1⟩] :=
  ⟨by decide, (list_ordered (fragmentEngine Char.toLower)
    [⟨1, "b", none, "https://figma.com/file/x", some "other", [], 1, 1⟩,
     ⟨2, "a", none, "https://figma.com/file/y", some "other", [], 2, 2⟩]
    ⟨none, none, some "alphabetical"⟩ _ (by decide)).1 rfl⟩

/-! ## List: search -/

theorem parseAtoms_literal (l : List Char) (h : ∀ c ∈ l, c ∉ regexSpecial) :
    parseAtoms l = some (l.map Atom.char) := by
  induction l with
  | nil => rfl
  | cons c cs ih =>
    have hc : c ∉ regexSpecial := h c (List.mem_cons_self _ _)
    have hcs := ih fun d hd => h d (List.mem_cons_of_mem _ hd)
    unfold parseAtoms
    split
    · rename_i heq
      simp at heq
    · rename_i heq
      simp only [List.cons.injEq] at heq
      obtain ⟨rfl, _⟩ := heq
      exact absurd (by decide) hc
    · rename_i heq
      simp only [List.cons.injEq] at heq
      obtain ⟨rfl, _⟩ := heq
      exact absurd (by decide) hc
    · rename_i heq
      simp only [List.cons.injEq] at heq
      obtain ⟨rfl, rfl⟩ := heq
      simp [hc, hcs]

theorem matchAt_literal (fold : Char → Char) (l ds : List Char) :
    matchAt fold (l.map Atom.char) ds = (l.map fold).isPrefixOf (ds.map fold) := by
  induction l generalizing ds with
  | nil => simp [matchAt]
  | cons c cs ih =>
    cases ds with
    | nil => simp [matchAt]
    | cons d ds => simp [matchAt, Atom.test, ih, List.isPrefixOf]

theorem searchAtoms_literal (fold : Char → Char) (l ds : List Char) :
    searchAtoms fold (l.map Atom.char) ds = includesChars (l.map fold) (ds.map fold) := by
  induction ds with
  | nil => cases l <;> simp [searchAtoms, matchAt, includesChars]
  | cons d ds ih =>
    simp only [searchAtoms, List.map_cons, includesChars, ih]
    rw [matchAt_literal]
    rfl

theorem fragmentEngine_literal (fold : Char → Char) (s : String)
    (h : ∀ c ∈ s.data, c ∉ regexSpecial) :
    fragmentEngine fold s = some fun subject => includesIgnoreCase fold subject s := by
  simp only [fragmentEngine, parseAtoms_literal s.data h, Option.map_some',
    searchAtoms_literal, includesIgnoreCase]

theorem mem_sortDocs (o : SortOptions) (docs : List Prototype) (p : Prototype) :
    p ∈ sortDocs o docs ↔ p ∈ docs :=
  (List.perm_insertionSort _ docs).mem_iff

theorem whenTruthy_of_ne {s : String} (h : s ≠ "") : whenTruthy (some s) = some s := by
  cases hw : whenTruthy (some s) with
  | none =>
    rcases (whenTruthy_eq_none_iff _).1 hw with h0 | h0
    · simp at h0
    · simp only [Option.some.injEq] at h0
      exact absurd h0 h
  | some t =>
    have := (whenTruthy_eq_some hw).1
    rw [← this]

theorem matchesSearch_literal (fold : Char → Char) (s : String) (p : Prototype) :
    matchesSearch (fun subject => includesIgnoreCase fold subject s) p
      = occursInRecord fold s p := rfl

/-- C4 fails for a pattern with a special character: the search `.` returns a
record in which no full stop occurs. -/
theorem search_dot_returns_record_without_dot :
    listPrototypes (fragmentEngine Char.toLower) [uiKit] ⟨some ".", none, none⟩ = ⟨200, .docs [uiKit]⟩ ∧
    uiKit ∈ [uiKit] ∧ occursInRecord Char.toLower "." uiKit = false := by
  decide

/-- C4 as amended: for a non-empty search string without a character that is
special in a regular expression, the list is sent and every record in it has
the search string, case disregarded, as a substring of its title, its
description or one of its tags. -/
theorem list_search_literal (fold : Char → Char) (store : Store) (q : Query) (s : String)
    (hs : q.search = some s) (hne : s ≠ "") (hlit : ∀ c ∈ s.data, c ∉ regexSpecial) :
    ∃ docs, listPrototypes (fragmentEngine fold) store q = ⟨200, .docs docs⟩ ∧
      ∀ p ∈ docs, occursInRecord fold s p = true := by
  have hq : ∃ query, buildQuery (fragmentEngine fold) q = some query ∧
      ∀ p, query p = true → occursInRecord fold s p = true := by
    simp only [buildQuery, hs, whenTruthy_of_ne hne, fragmentEngine_literal fold s hlit,
      Option.map_some', Option.some.injEq, exists_eq_left', Bool.and_eq_true]
    intro p hp
    rw [← matchesSearch_literal]
    exact hp.1
  obtain ⟨query, hquery, hocc⟩ := hq
  refine ⟨sortDocs (sortOptions (q.sortBy.getD "newest")) (store.filter query), ?_, ?_⟩
  · simp only [listPrototypes, hquery]
  · intro p hp
    rw [mem_sortDocs, List.mem_filter] at hp
    exact hocc p hp.2

/-- C4 as amended, at the search `kit` of the specification: the record titled
"UI Kit" is returned. -/
theorem list_search_literal_witness :
    listPrototypes (fragmentEngine Char.toLower) [uiKit] ⟨some "kit", none, none⟩ = ⟨200, .docs [uiKit]⟩ ∧
    ∃ docs, listPrototypes (fragmentEngine Char.toLower) [uiKit] ⟨some "kit", none, none⟩
        = ⟨200, .docs docs⟩ ∧
      ∀ p ∈ docs, occursInRecord Char.toLower "kit" p = true :=
  ⟨by decide, list_search_literal Char.toLower [uiKit] ⟨some "kit", none, none⟩ "kit" rfl (by decide)
    (by decide)⟩

/-! ## List: search and category together -/

theorem orderedInsert_of_forall_rel {α : Type} (r : α → α → Prop) [DecidableRel r]
    (a : α) (l : List α) (h : ∀ x ∈ l, r a x) : l.orderedInsert r a = a :: l := by
  cases l with
  | nil => rfl
  | cons b l => simp [List.orderedInsert, h b (List.mem_cons_self _ _)]

theorem filter_orderedInsert_neg {α : Type} (r : α → α → Prop) [DecidableRel r]
    (g : α → Bool) (a : α) (l : List α) (ha : g a = false) :
    (l.orderedInsert r a).filter g = l.filter g := by
  induction l with
  | nil => simp [List.orderedInsert, ha]
  | cons b l ih =>
    simp only [List.orderedInsert]
    split
    · simp [List.filter_cons, ha]
    · simp only [List.filter_cons, ih]

theorem filter_orderedInsert_pos {α : Type} (r : α → α → Prop) [DecidableRel r]
    [IsTrans α r] (g : α → Bool) (a : α) (l : List α) (ha : g a = true)
    (hl : l.Pairwise r) :
    (l.orderedInsert r a).filter g = (l.filter g).orderedInsert r a := by
  induction l with
  | nil => simp [List.orderedInsert, ha]
  | cons b l ih =>
    rw [List.pairwise_cons] at hl
    by_cases hab : r a b
    · have hall : ∀ x ∈ (b :: l).filter g, r a x := by
        intro x hx
        have hx1 := (List.mem_filter.1 hx).1
        rcases List.mem_cons.1 hx1 with rfl | hxl
        · exact hab
        · exact IsTrans.trans _ _ _ hab (hl.1 x hxl)
      rw [orderedInsert_of_forall_rel r a _ hall]
      simp [List.orderedInsert, hab, List.filter_cons, ha]
    · simp only [List.orderedInsert, hab, ↓reduceIte, List.filter_cons, ih hl.2]
      split
      · simp [List.orderedInsert, hab]
      · rfl

theorem filter_insertionSort {α : Type} (r : α → α → Prop) [DecidableRel r]
    [IsTrans α r] [IsTotal α r] (g : α → Bool) (l : List α) :
    (l.insertionSort r).filter g = (l.filter g).insertionSort r := by
  induction l with
  | nil => rfl
  | cons a l ih =>
    simp only [List.insertionSort, List.filter_cons]
    cases ha : g a with
    | true =>
      simp only [↓reduceIte, List.insertionSort]
      rw [filter_orderedInsert_pos r g a _ ha (List.sorted_insertionSort r l), ih]
    | false =>
      simp only [Bool.false_eq_true, ↓reduceIte]
      rw [filter_orderedInsert_neg r g a _ ha, ih]

theorem filter_sortDocs (o : SortOptions) (g : Prototype → Bool) (docs : List Prototype) :
    (sortDocs o docs).filter g = sortDocs o (docs.filter g) := by
  haveI : IsTotal Prototype (fun a b => o.le a b = true) := ⟨o.le_isTotal⟩
  haveI : IsTrans Prototype (fun a b => o.le a b = true) := ⟨o.le_isTrans⟩
  exact filter_insertionSort _ g docs

/-- C5 fails for the empty category: it is falsy, the handler builds no
category filter, and the record of category `ui-kit` found by the search is
returned although its category is not the empty string. -/
theorem empty_category_is_no_filter :
    listPrototypes (fragmentEngine Char.toLower) [uiKit] ⟨some "kit", none, none⟩ = ⟨200, .docs [uiKit]⟩ ∧
    listPrototypes (fragmentEngine Char.toLower) [uiKit] ⟨some "kit", some "", none⟩ = ⟨200, .docs [uiKit]⟩ ∧
    [uiKit].filter (fun p => p.category == some "") = [] := by
  decide

/-- C5 as amended: for a non-empty category, the list sent for a search and
the category is the list sent for the search alone, restricted to the records
whose category equals the requested one, in the same order. -/
theorem list_search_and_category (rx : RegexEngine) (store : Store) (search : Option String)
    (c : String) (sortBy : Option String) (docs : List Prototype) (hc : c ≠ "")
    (h : listPrototypes rx store ⟨search, none, sortBy⟩ = ⟨200, .docs docs⟩) :
    listPrototypes rx store ⟨search, some c, sortBy⟩
      = ⟨200, .docs (docs.filter fun p => p.category == some c)⟩ := by
  obtain ⟨query, hquery, hdocs⟩ := list_docs h
  have key : ∀ cat, buildQuery rx ⟨search, cat, sortBy⟩
      = (match whenTruthy search with
          | some s => (rx s).map matchesSearch
          | none => some fun _ => true : Option (Prototype → Bool)).map
        fun (f : Prototype → Bool) p => f p && (match whenTruthy cat with
          | some c => matchesCategory c
          | none => fun _ => true) p := fun _ => rfl
  rw [key] at hquery
  cases hb : (match whenTruthy search with
      | some s => (rx s).map matchesSearch
      | none => some fun _ => true : Option (Prototype → Bool)) with
  | none => rw [hb] at hquery; simp at hquery
  | some f =>
    rw [hb] at hquery
    simp only [whenTruthy, Option.map_some', Option.some.injEq] at hquery
    subst hquery
    have hboth : buildQuery rx ⟨search, some c, sortBy⟩
        = some fun p => f p && matchesCategory c p := by
      rw [key, hb, whenTruthy_of_ne hc]
      rfl
    simp only [listPrototypes, hboth, Response.mk.injEq, Json.docs.injEq, true_and]
    rw [hdocs, filter_sortDocs, List.filter_filter]
    congr 2
    funext p
    simp [matchesCategory, Bool.and_comm]

/-- C5 as amended, on a store of three records, two of which match the search. -/
theorem list_search_and_category_witness :
    listPrototypes (fragmentEngine Char.toLower)
        [uiKit, ⟨2, "Kit two", none, "https://figma.com/file/y", some "website", [], 6, 6⟩,
         ⟨3, "Shop", none, "https://figma.com/file/z", some "ui-kit", [], 7, 7⟩]
        ⟨some "kit", none, none⟩
      = ⟨200, .docs
        [⟨2, "Kit two", none, "https://figma.com/file/y", some "website", [], 6, 6⟩, uiKit]⟩ ∧
    listPrototypes (fragmentEngine Char.toLower)
        [uiKit, ⟨2, "Kit two", none, "https://figma.com/file/y", some "website", [], 6, 6⟩,
         ⟨3, "Shop", none, "https://figma.com/file/z", some "ui-kit", [], 7, 7⟩]
        ⟨some "kit", some "ui-kit", none⟩
      = ⟨200, .docs
        ([⟨2, "Kit two", none, "https://figma.com/file/y", some "website", [], 6, 6⟩,
          uiKit].filter fun p => p.category == some "ui-kit")⟩ :=
  ⟨by decide, list_search_and_category (fragmentEngine Char.toLower) _ (some "kit") "ui-kit" none _
    (by decide) (by decide)⟩

/-! ## Create, then read -/

theorem find?_append_fresh (store : Store) (p : Prototype)
    (h : store.any (fun q => q._id == p._id) = false) :
    findById (store ++ [p]) p._id = some p := by
  have hnone : store.find? (fun q => q._id == p._id) = none := by
    rw [List.find?_eq_none]
    intro q hq
    have := List.any_eq_false.1 h q hq
    simpa using this
  simp [findById, List.find?_append, hnone]

/-- C6 fails for a title with surrounding white space: the `trim` setter of the
schema stores `"X"` for the input title `" X"`. -/
theorem create_stores_trimmed_title :
    createPrototype ⟨7, 10, 10, 11⟩ []
        ⟨some " X", none, some "https://figma.com/file/abc", none, none⟩
      = ([⟨7, "X", none, "https://figma.com/file/abc", some "other", [], 10, 11⟩],
         ⟨201, .doc ⟨7, "X", none, "https://figma.com/file/abc", some "other", [], 10, 11⟩⟩) ∧
    getPrototype [⟨7, "X", none, "https://figma.com/file/abc", some "other", [], 10, 11⟩] 7
      = ⟨200, .doc ⟨7, "X", none, "https://figma.com/file/abc", some "other", [], 10, 11⟩⟩ ∧
    (⟨7, "X", none, "https://figma.com/file/abc", some "other", [], 10, 11⟩ : Prototype).title
      ≠ " X" := by
  decide

/-- C6 as amended: after an accepted create, reading the returned id yields the
created record; its link is the input link, its title and description are the
input ones with surrounding white space trimmed, its category is the input
category or `other` when none was sent, its tags are the cleaned split of the
input tag string, and it carries the minted id and the two timestamps. -/
theorem create_then_get (env : CreateEnv) (store store₁ : Store) (body : Body) (p : Prototype)
    (h : createPrototype env store body = (store₁, ⟨201, .doc p⟩)) :
    getPrototype store₁ p._id = ⟨200, .doc p⟩ ∧
    some p.title = body.title.map jsTrim ∧
    p.description = body.description.map jsTrim ∧
    some p.figmaUrl = body.figmaUrl ∧
    p.category = some (body.category.getD "other") ∧
    p.tags = processTags body.tags ∧
    p._id = env.oid ∧ p.createdAt = env.createdAtNow ∧ p.updatedAt = env.preSaveNow := by
  obtain ⟨title, figmaUrl, ht, hf, _, hd, hp, hs⟩ := create_created h
  have hid : p._id = env.oid := by rw [hp]; rfl
  refine ⟨?_, ?_, ?_, ?_, ?_, ?_, hid, ?_, ?_⟩
  · rw [hs]
    have := find?_append_fresh store p (by rw [hid]; exact hd)
    simp only [getPrototype, this]
  · rw [(whenTruthy_eq_some ht).1, hp]; rfl
  · rw [hp]; rfl
  · rw [(whenTruthy_eq_some hf).1, hp]; rfl
  · rw [hp]; rfl
  · rw [hp]; exact processTags_trimmed _
  · rw [hp]; rfl
  · rw [hp]; rfl

/-- C6 as amended, on a request with every field. -/
theorem create_then_get_witness :
    createPrototype ⟨7, 10, 10, 11⟩ [uiKit]
        ⟨some " Shop ", some "A shop ", some "https://figma.com/proto/abc", some "website",
          some "a, b"⟩
      = ([uiKit, ⟨7, "Shop", some "A shop", "https://figma.com/proto/abc", some "website",
            ["a", "b"], 10, 11⟩],
         ⟨201, .doc ⟨7, "Shop", some "A shop", "https://figma.com/proto/abc", some "website",
            ["a", "b"], 10, 11⟩⟩) ∧
    getPrototype [uiKit, ⟨7, "Shop", some "A shop", "https://figma.com/proto/abc",
        some "website", ["a", "b"], 10, 11⟩] 7
      = ⟨200, .doc ⟨7, "Shop", some "A shop", "https://figma.com/proto/abc", some "website",
            ["a", "b"], 10, 11⟩⟩ :=
  ⟨by decide,
   (create_then_get ⟨7, 10, 10, 11⟩ [uiKit]
      [uiKit, ⟨7, "Shop", some "A shop", "https://figma.com/proto/abc", some "website",
        ["a", "b"], 10, 11⟩]
      ⟨some " Shop ", some "A shop ", some "https://figma.com/proto/abc", some "website",
        some "a, b"⟩
      ⟨7, "Shop", some "A shop", "https://figma.com/proto/abc", some "website",
        ["a", "b"], 10, 11⟩ (by decide)).1⟩

/-- C7 fails when the clock advances during the create: `createdAt` is read
when the document is built, `updatedAt` is overwritten by the `pre('save')`
hook with a later reading. -/
theorem create_timestamps_differ :
    createPrototype ⟨7, 10, 10, 11⟩ []
        ⟨some "X", none, some "https://figma.com/file/abc", none, none⟩
      = ([⟨7, "X", none, "https://figma.com/file/abc", some "other", [], 10, 11⟩],
         ⟨201, .doc ⟨7, "X", none, "https://figma.com/file/abc", some "other", [], 10, 11⟩⟩) ∧
    (⟨7, "X", none, "https://figma.com/file/abc", some "other", [], 10, 11⟩
      : Prototype).createdAt ≠
    (⟨7, "X", none, "https://figma.com/file/abc", some "other", [], 10, 11⟩
      : Prototype).updatedAt := by
  decide

/-- C7 as amended: after an accepted create, `createdAt` is the clock reading
taken for its default and `updatedAt` the reading taken by the `pre('save')`
hook; the two are equal exactly when these readings are, and `updatedAt` is not
before `createdAt` whenever the clock did not go back between them. -/
theorem create_timestamps (env : CreateEnv) (store store₁ : Store) (body : Body) (p : Prototype)
    (h : createPrototype env store body = (store₁, ⟨201, .doc p⟩)) :
    p.createdAt = env.createdAtNow ∧ p.updatedAt = env.preSaveNow ∧
    (p.createdAt = p.updatedAt ↔ env.createdAtNow = env.preSaveNow) ∧
    (env.createdAtNow ≤ env.preSaveNow → p.createdAt ≤ p.updatedAt) := by
  obtain ⟨title, figmaUrl, _, _, _, _, hp, _⟩ := create_created h
  have h1 : p.createdAt = env.createdAtNow := by rw [hp]; rfl
  have h2 : p.updatedAt = env.preSaveNow := by rw [hp]; rfl
  rw [h1, h2]
  exact ⟨rfl, rfl, Iff.rfl, id⟩

/-- C7 as amended, with a clock that stands still during the create. -/
theorem create_timestamps_witness :
    createPrototype ⟨7, 10, 10, 10⟩ []
        ⟨some "X", none, some "https://figma.com/file/abc", none, none⟩
      = ([⟨7, "X", none, "https://figma.com/file/abc", some "other", [], 10, 10⟩],
         ⟨201, .doc ⟨7, "X", none, "https://figma.com/file/abc", some "other", [], 10, 10⟩⟩) ∧
    (⟨7, "X", none, "https://figma.com/file/abc", some "other", [], 10, 10⟩
      : Prototype).createdAt =
    (⟨7, "X", none, "https://figma.com/file/abc", some "other", [], 10, 10⟩
      : Prototype).updatedAt :=
  ⟨by decide,
   (create_timestamps ⟨7, 10, 10, 10⟩ []
      [⟨7, "X", none, "https://figma.com/file/abc", some "other", [], 10, 10⟩]
      ⟨some "X", none, some "https://figma.com/file/abc", none, none⟩
      ⟨7, "X", none, "https://figma.com/file/abc", some "other", [], 10, 10⟩
      (by decide)).2.2.1.2 rfl⟩

/-! ## Update -/

theorem findById_some {store : Store} {id : ObjectId} {p : Prototype}
    (h : findById store id = some p) : p._id = id ∧ p ∈ store := by
  unfold findById at h
  exact ⟨by simpa using List.find?_some h, List.mem_of_find?_eq_some h⟩

theorem findById_eq_none_iff (store : Store) (id : ObjectId) :
    findById store id = none ↔ ∀ p ∈ store, p._id ≠ id := by
  simp [findById, List.find?_eq_none]

theorem findById_modifyFirst_same (id : ObjectId) (f : Prototype → Prototype) (store : Store)
    (old : Prototype) (hf : ∀ p, (f p)._id = p._id) (h : findById store id = some old) :
    findById (modifyFirst id f store) id = some (f old) := by
  induction store with
  | nil => simp [findById] at h
  | cons q qs ih =>
    unfold findById at h ih ⊢
    simp only [modifyFirst]
    by_cases hq : q._id = id
    · simp only [hq, beq_self_eq_true, ↓reduceIte, List.find?_cons_of_pos, Option.some.injEq] at h ⊢
      subst h
      simp [List.find?_cons, hf, hq]
    · have hq1 : (q._id == id) = false := by simpa using hq
      simp only [hq1, Bool.false_eq_true, ↓reduceIte, List.find?_cons, not_false_eq_true] at h ⊢
      exact ih h

theorem findById_modifyFirst_other (id j : ObjectId) (f : Prototype → Prototype)
    (store : Store) (hf : ∀ p, (f p)._id = p._id) (hj : j ≠ id) :
    findById (modifyFirst id f store) j = findById store j := by
  induction store with
  | nil => rfl
  | cons q qs ih =>
    unfold findById at ih ⊢
    simp only [modifyFirst]
    by_cases hq : q._id = id
    · have hqj : (q._id == j) = false := by
        simp only [beq_eq_false_iff_ne, ne_eq]
        rw [hq]
        exact fun h => hj h.symm
      have hfj : ((f q)._id == j) = false := by rw [hf]; exact hqj
      have hq1 : (q._id == id) = true := by simpa using hq
      simp only [hq1, ↓reduceIte, List.find?_cons, hqj, hfj]
    · have hq1 : (q._id == id) = false := by simpa using hq
      simp only [hq1, Bool.false_eq_true, ↓reduceIte, List.find?_cons]
      rw [ih]

theorem length_modifyFirst (id : ObjectId) (f : Prototype → Prototype) (store : Store) :
    (modifyFirst id f store).length = store.length := by
  induction store with
  | nil => rfl
  | cons q qs ih =>
    simp only [modifyFirst]
    split <;> simp [ih]

/-- Inversion of a successful update: what the handler did when it answered
200 with a document. -/
theorem update_updated {policy : UndefinedKeys} {now : Nat} {store store₁ : Store}
    {id : ObjectId} {body : Body} {p : Prototype}
    (h : updatePrototype policy now store id body = (store₁, ⟨200, .doc p⟩)) :
    ∃ title figmaUrl old,
      whenTruthy body.title = some title ∧ whenTruthy body.figmaUrl = some figmaUrl ∧
      findById store id = some old ∧
      p = applyUpdate policy (castUpdate
        ⟨title, body.description, figmaUrl, body.category, processTags body.tags, now⟩) old ∧
      store₁ = modifyFirst id (applyUpdate policy (castUpdate
        ⟨title, body.description, figmaUrl, body.category, processTags body.tags, now⟩))
        store := by
  unfold updatePrototype at h
  cases ht : whenTruthy body.title with
  | none => rw [ht] at h; simp at h
  | some title =>
    cases hf : whenTruthy body.figmaUrl with
    | none => rw [ht, hf] at h; simp at h
    | some figmaUrl =>
      rw [ht, hf] at h
      simp only [findByIdAndUpdate] at h
      split at h
      · rename_i heq
        split at heq
        · simp at heq
        · cases hold : findById store id with
          | none => rw [hold] at heq; simp at heq
          | some old =>
            rw [hold] at heq
            simp only [UpdateResult.updated.injEq] at heq
            simp only [Prod.mk.injEq, Response.mk.injEq, Json.doc.injEq, true_and] at h
            refine ⟨title, figmaUrl, old, rfl, rfl, rfl, ?_, ?_⟩
            · rw [← h.2, ← heq.2]
            · rw [← h.1, ← heq.1]
      · simp at h
      · simp at h

theorem applyUpdate_id (policy : UndefinedKeys) (u : UpdateDoc) (p : Prototype) :
    (applyUpdate policy u p)._id = p._id := rfl

/-- C8 fails when the clock reading of the update is not later than the
previous `updatedAt`: an update in the millisecond of the previous write leaves
`updatedAt` as it was. -/
theorem update_same_millisecond :
    updatePrototype .stripped 6 [described] 2
        ⟨some "Shop 2", some "New text", some "https://www.figma.com/proto/xyz",
          some "website", some "x"⟩
      = ([⟨2, "Shop 2", some "New text", "https://www.figma.com/proto/xyz", some "website",
            ["x"], 6, 6⟩],
         ⟨200, .doc ⟨2, "Shop 2", some "New text", "https://www.figma.com/proto/xyz",
            some "website", ["x"], 6, 6⟩⟩) ∧
    ¬ described.updatedAt <
      (⟨2, "Shop 2", some "New text", "https://www.figma.com/proto/xyz", some "website",
        ["x"], 6, 6⟩ : Prototype).updatedAt := by
  decide

/-- C8 as amended: after a successful update the record found under the id has
the same id and `createdAt` as before, its `updatedAt` is the clock reading of
the update, hence strictly greater than before exactly when that reading is
later than the previous `updatedAt`, and every other id reads as before. -/
theorem update_frame (policy : UndefinedKeys) (now : Nat) (store store₁ : Store)
    (id : ObjectId) (body : Body) (p : Prototype)
    (h : updatePrototype policy now store id body = (store₁, ⟨200, .doc p⟩)) :
    ∃ old, getPrototype store id = ⟨200, .doc old⟩ ∧
      getPrototype store₁ id = ⟨200, .doc p⟩ ∧
      p._id = old._id ∧ p.createdAt = old.createdAt ∧ p.updatedAt = now ∧
      (old.updatedAt < p.updatedAt ↔ old.updatedAt < now) ∧
      (∀ j, j ≠ id → getPrototype store₁ j = getPrototype store j) ∧
      store₁.length = store.length := by
  obtain ⟨title, figmaUrl, old, _, _, hold, hp, hs⟩ := update_updated h
  refine ⟨old, ?_, ?_, ?_, ?_, ?_, ?_, ?_, ?_⟩
  · simp only [getPrototype, hold]
  · rw [hs, hp]
    simp only [getPrototype,
      findById_modifyFirst_same id _ store old (applyUpdate_id policy _) hold]
  · rw [hp]; rfl
  · rw [hp]; rfl
  · rw [hp]; rfl
  · rw [hp]; exact Iff.rfl
  · intro j hj
    rw [hs]
    simp only [getPrototype, findById_modifyFirst_other id j _ store (applyUpdate_id policy _) hj]
  · rw [hs, length_modifyFirst]

/-- C8 as amended, on a store of two records, with a later clock reading. -/
theorem update_frame_witness :
    updatePrototype .stripped 9 [uiKit, described] 2
        ⟨some "Shop 2", some "New text", some "https://www.figma.com/proto/xyz",
          some "website", some "x"⟩
      = ([uiKit, ⟨2, "Shop 2", some "New text", "https://www.figma.com/proto/xyz",
            some "website", ["x"], 6, 9⟩],
         ⟨200, .doc ⟨2, "Shop 2", some "New text", "https://www.figma.com/proto/xyz",
            some "website", ["x"], 6, 9⟩⟩) ∧
    ∃ old, getPrototype [uiKit, described] 2 = ⟨200, .doc old⟩ ∧
      getPrototype [uiKit, ⟨2, "Shop 2", some "New text", "https://www.figma.com/proto/xyz",
            some "website", ["x"], 6, 9⟩] 2
        = ⟨200, .doc ⟨2, "Shop 2", some "New text", "https://www.figma.com/proto/xyz",
            some "website", ["x"], 6, 9⟩⟩ ∧
      (2 : ObjectId) = old._id ∧ 6 = old.createdAt ∧ 9 = 9 ∧
      (old.updatedAt < 9 ↔ old.updatedAt < 9) ∧
      (∀ j, j ≠ 2 →
        getPrototype [uiKit, ⟨2, "Shop 2", some "New text",
            "https://www.figma.com/proto/xyz", some "website", ["x"], 6, 9⟩] j
          = getPrototype [uiKit, described] j) ∧
      [uiKit, (⟨2, "Shop 2", some "New text", "https://www.figma.com/proto/xyz",
          some "website", ["x"], 6, 9⟩ : Prototype)].length = [uiKit, described].length :=
  ⟨by decide,
   update_frame .stripped 9 [uiKit, described]
      [uiKit, ⟨2, "Shop 2", some "New text", "https://www.figma.com/proto/xyz",
        some "website", ["x"], 6, 9⟩] 2
      ⟨some "Shop 2", some "New text", some "https://www.figma.com/proto/xyz",
        some "website", some "x"⟩
      ⟨2, "Shop 2", some "New text", "https://www.figma.com/proto/xyz", some "website",
        ["x"], 6, 9⟩ (by decide)⟩

/-- C9 fails where keys with an undefined value are stripped from the update
document: an update that sends neither description nor category leaves the
record with the description and the category it had. -/
theorem update_keeps_omitted_fields :
    updatePrototype .stripped 9 [described] 2
        ⟨some "Shop 2", none, some "https://www.figma.com/file/new", none, none⟩
      = ([⟨2, "Shop 2", some "Old text", "https://www.figma.com/file/new", some "website",
            [], 6, 9⟩],
         ⟨200, .doc ⟨2, "Shop 2", some "Old text", "https://www.figma.com/file/new",
            some "website", [], 6, 9⟩⟩) ∧
    (⟨2, "Shop 2", some "Old text", "https://www.figma.com/file/new", some "website",
        [], 6, 9⟩ : Prototype).description = described.description ∧
    (⟨2, "Shop 2", some "Old text", "https://www.figma.com/file/new", some "website",
        [], 6, 9⟩ : Prototype).category = described.category := by
  decide

/-- C9 as amended: after a successful update the title, the link and the tags
are those of the update input (title trimmed, tags the cleaned split, the empty
list when no tags are sent), and so are the description and the category when
the input carries them; a description or category the input omits keeps its
previous value where undefined keys are stripped from the update document, and
is cleared where they are written as `null`. -/
theorem update_overwrites (policy : UndefinedKeys) (now : Nat) (store store₁ : Store)
    (id : ObjectId) (body : Body) (p : Prototype)
    (h : updatePrototype policy now store id body = (store₁, ⟨200, .doc p⟩)) :
    ∃ old, getPrototype store id = ⟨200, .doc old⟩ ∧
      some p.title = body.title.map jsTrim ∧
      some p.figmaUrl = body.figmaUrl ∧
      p.tags = processTags body.tags ∧
      (body.tags = none → p.tags = []) ∧
      (∀ d, body.description = some d → p.description = some (jsTrim d)) ∧
      (∀ c, body.category = some c → p.category = some c) ∧
      (body.description = none →
        (policy = .stripped → p.description = old.description) ∧
        (policy = .writtenAsNull → p.description = none)) ∧
      (body.category = none →
        (policy = .stripped → p.category = old.category) ∧
        (policy = .writtenAsNull → p.category = none)) := by
  obtain ⟨title, figmaUrl, old, ht, hf, hold, hp, _⟩ := update_updated h
  refine ⟨old, ?_, ?_, ?_, ?_, ?_, ?_, ?_, ?_, ?_⟩
  · simp only [getPrototype, hold]
  · rw [(whenTruthy_eq_some ht).1, hp]; rfl
  · rw [(whenTruthy_eq_some hf).1, hp]; rfl
  · rw [hp]; exact processTags_trimmed _
  · intro hnone
    rw [hp, hnone]
    rfl
  · intro d hd
    rw [hp, hd]
    cases policy <;> rfl
  · intro c hc
    rw [hp, hc]
    cases policy <;> rfl
  · intro hnone
    rw [hp, hnone]
    constructor <;> rintro rfl <;> rfl
  · intro hnone
    rw [hp, hnone]
    constructor <;> rintro rfl <;> rfl

/-- C9 as amended, where undefined keys are written as `null`: the omitted
description and category are cleared, the tags are emptied. -/
theorem update_overwrites_witness :
    updatePrototype .writtenAsNull 9 [described] 2
        ⟨some "Shop 2", none, some "https://www.figma.com/file/new", none, none⟩
      = ([⟨2, "Shop 2", none, "https://www.figma.com/file/new", none, [], 6, 9⟩],
         ⟨200, .doc ⟨2, "Shop 2", none, "https://www.figma.com/file/new", none, [], 6, 9⟩⟩) ∧
    ∃ old, getPrototype [described] 2 = ⟨200, .doc old⟩ ∧
      some "Shop 2" = (some "Shop 2" : Option String).map jsTrim ∧
      some "https://www.figma.com/file/new" = some "https://www.figma.com/file/new" ∧
      ([] : List String) = processTags none ∧
      ((none : Option String) = none → ([] : List String) = []) ∧
      (∀ d, (none : Option String) = some d → (none : Option String) = some (jsTrim d)) ∧
      (∀ c, (none : Option String) = some c → (none : Option String) = some c) ∧
      ((none : Option String) = none →
        (UndefinedKeys.writtenAsNull = .stripped → (none : Option String) = old.description) ∧
        (UndefinedKeys.writtenAsNull = .writtenAsNull → (none : Option String) = none)) ∧
      ((none : Option String) = none →
        (UndefinedKeys.writtenAsNull = .stripped → (none : Option String) = old.category) ∧
        (UndefinedKeys.writtenAsNull = .writtenAsNull → (none : Option String) = none)) :=
  ⟨by decide,
   update_overwrites .writtenAsNull 9 [described]
      [⟨2, "Shop 2", none, "https://www.figma.com/file/new", none, [], 6, 9⟩] 2
      ⟨some "Shop 2", none, some "https://www.figma.com/file/new", none, none⟩
      ⟨2, "Shop 2", none, "https://www.figma.com/file/new", none, [], 6, 9⟩ (by decide)⟩

/-! ## Delete -/

theorem findById_eraseP_other (store : Store) (id j : ObjectId) (hj : j ≠ id) :
    findById (store.eraseP fun p => p._id == id) j = findById store j := by
  induction store with
  | nil => rfl
  | cons q qs ih =>
    unfold findById at ih ⊢
    by_cases hq : q._id = id
    · have hq1 : (q._id == id) = true := by simpa using hq
      have hqj : (q._id == j) = false := by
        simp only [beq_eq_false_iff_ne, ne_eq]
        rw [hq]
        exact fun h => hj h.symm
      simp only [List.eraseP_cons, hq1, cond_true, List.find?_cons, hqj]
    · have hq1 : (q._id == id) = false := by simpa using hq
      simp only [List.eraseP_cons, hq1, cond_false, List.find?_cons]
      rw [ih]

theorem eraseP_eq_filter (store : Store) (id : ObjectId)
    (hu : (store.map fun p => p._id).Nodup) :
    (store.eraseP fun p => p._id == id) = store.filter fun p => p._id != id := by
  induction store with
  | nil => rfl
  | cons q qs ih =>
    rw [List.map_cons, List.nodup_cons] at hu
    by_cases hq : q._id = id
    · have hq1 : (q._id == id) = true := by simpa using hq
      have hq2 : (q._id != id) = false := by simp [hq]
      have hall : qs.filter (fun p => p._id != id) = qs := by
        rw [List.filter_eq_self]
        intro x hx
        simp only [bne_iff_ne, ne_eq]
        intro hxid
        apply hu.1
        rw [hq, ← hxid]
        exact List.mem_map_of_mem _ hx
      simp only [List.eraseP_cons, hq1, cond_true, List.filter_cons, hq2, Bool.false_eq_true,
        ↓reduceIte, hall]
    · have hq1 : (q._id == id) = false := by simpa using hq
      have hq2 : (q._id != id) = true := by simpa using hq
      simp only [List.eraseP_cons, hq1, cond_false, List.filter_cons, hq2, ↓reduceIte,
        ih hu.2]

theorem findById_filter_ne (store : Store) (id : ObjectId) :
    findById (store.filter fun p => p._id != id) id = none := by
  rw [findById_eq_none_iff]
  intro p hp
  simpa using (List.mem_filter.1 hp).2

/-- Deleting by a cast id, in a store whose ids are distinct. -/
theorem deleteById_removes_exactly (store : Store) (id : ObjectId)
    (hu : (store.map fun p => p._id).Nodup) :
    ((∃ p ∈ store, p._id = id) →
      (deleteById store id).2 = ⟨200, .message "Prototype deleted successfully"⟩ ∧
      (deleteById store id).1 = store.filter (fun p => p._id != id) ∧
      getPrototype (deleteById store id).1 id = ⟨404, .error "Prototype not found"⟩ ∧
      ∀ j, j ≠ id → getPrototype (deleteById store id).1 j = getPrototype store j) ∧
    ((∀ p ∈ store, p._id ≠ id) →
      deleteById store id = (store, ⟨404, .error "Prototype not found"⟩)) := by
  constructor
  · rintro ⟨p, hp, hpid⟩
    cases hfind : findById store id with
    | none => exact absurd hpid ((findById_eq_none_iff store id).1 hfind p hp)
    | some old =>
      have hstore : (deleteById store id).1 = store.eraseP fun p => p._id == id := by
        simp only [deleteById, findByIdAndDelete, hfind]
      refine ⟨?_, ?_, ?_, ?_⟩
      · simp only [deleteById, findByIdAndDelete, hfind]
      · rw [hstore, eraseP_eq_filter store id hu]
      · rw [hstore, eraseP_eq_filter store id hu]
        simp only [getPrototype, findById_filter_ne]
      · intro j hj
        rw [hstore]
        simp only [getPrototype, findById_eraseP_other store id j hj]
  · intro hnone
    have hfind := (findById_eq_none_iff store id).2 hnone
    simp only [deleteById, findByIdAndDelete, hfind]

/-- C10 fails for a path parameter that is not a well-formed id: no record has
the id `abc`, the cast throws, and the delete is answered 500, not 404. -/
theorem delete_malformed_id :
    hexObjectId "abc" = none ∧
    deletePrototype hexObjectId [uiKit, described] "abc"
      = ([uiKit, described], ⟨500, .error "Failed to delete prototype"⟩) := by
  decide

/-- C10 as amended: in a store whose ids are distinct, for a path parameter
that is a well-formed id, deleting an existing id answers 200 with the
confirmation message only, removes the record of that id and no other (the same
parameter then reads 404, every parameter that is not this id reads as before),
and deleting an id that no record has answers 404 and leaves the store as it
was; for a path parameter that is not a well-formed id the delete is answered
500 and the store is left as it was. -/
theorem delete_removes_exactly (cast : ObjectIdCast) (store : Store) (rawId : String)
    (hu : (store.map fun p => p._id).Nodup) :
    (∀ id, cast rawId = some id →
      ((∃ p ∈ store, p._id = id) →
        (deletePrototype cast store rawId).2
          = ⟨200, .message "Prototype deleted successfully"⟩ ∧
        (deletePrototype cast store rawId).1 = store.filter (fun p => p._id != id) ∧
        getPrototypeByParam cast (deletePrototype cast store rawId).1 rawId
          = ⟨404, .error "Prototype not found"⟩ ∧
        ∀ other, cast other ≠ some id →
          getPrototypeByParam cast (deletePrototype cast store rawId).1 other
            = getPrototypeByParam cast store other) ∧
      ((∀ p ∈ store, p._id ≠ id) →
        deletePrototype cast store rawId = (store, ⟨404, .error "Prototype not found"⟩))) ∧
    (cast rawId = none →
      deletePrototype cast store rawId
        = (store, ⟨500, .error "Failed to delete prototype"⟩)) := by
  constructor
  · intro id hid
    have hdel : deletePrototype cast store rawId = deleteById store id := by
      simp only [deletePrototype, hid]
    obtain ⟨hex, hnone⟩ := deleteById_removes_exactly store id hu
    rw [hdel]
    refine ⟨fun hmem => ?_, hnone⟩
    obtain ⟨h1, h2, h3, h4⟩ := hex hmem
    refine ⟨h1, h2, ?_, ?_⟩
    · simp only [getPrototypeByParam, hid]
      exact h3
    · intro other hother
      cases hc : cast other with
      | none => simp only [getPrototypeByParam, hc]
      | some j =>
        simp only [getPrototypeByParam, hc]
        exact h4 j (fun hj => hother (by rw [hc, hj]))
  · intro hnone
    simp only [deletePrototype, hnone]

/-- C10 as amended, on a store of two records: deleting the id 1 leaves the
other record, and deleting an unknown well-formed id answers 404. -/
theorem delete_removes_exactly_witness :
    hexObjectId "000000000000000000000001" = some 1 ∧
    deletePrototype hexObjectId [uiKit, described] "000000000000000000000001"
      = ([described], ⟨200, .message "Prototype deleted successfully"⟩) ∧
    deletePrototype hexObjectId [uiKit, described] "0000000000000000000000ff"
      = ([uiKit, described], ⟨404, .error "Prototype not found"⟩) ∧
    getPrototypeByParam hexObjectId
        (deletePrototype hexObjectId [uiKit, described] "000000000000000000000001").1
        "000000000000000000000001"
      = ⟨404, .error "Prototype not found"⟩ :=
  ⟨by decide, by decide, by decide,
   (((delete_removes_exactly hexObjectId [uiKit, described] "000000000000000000000001"
      (by decide)).1 1 (by decide)).1 ⟨uiKit, by decide, rfl⟩).2.2.1⟩

theorem map_id_modifyFirst (id : ObjectId) (f : Prototype → Prototype) (store : Store)
    (hf : ∀ p, (f p)._id = p._id) :
    (modifyFirst id f store).map (fun p => p._id) = store.map fun p => p._id := by
  induction store with
  | nil => rfl
  | cons q qs ih =>
    simp only [modifyFirst]
    split
    · simp [hf]
    · simp [ih]

theorem create_store_cases (env : CreateEnv) (store : Store) (body : Body) :
    (createPrototype env store body).1 = store ∨
    ∃ p, p._id = env.oid ∧ store.any (fun q => q._id == env.oid) = false ∧
      (createPrototype env store body).1 = store ++ [p] := by
  unfold createPrototype
  cases whenTruthy body.title with
  | none => exact Or.inl rfl
  | some title =>
    cases whenTruthy body.figmaUrl with
    | none => exact Or.inl rfl
    | some figmaUrl =>
      simp only []
      by_cases hv : invalidPaths (newPrototype env title body.description figmaUrl
          body.category (processTags body.tags)) = []
      · by_cases hd : store.any (fun q => q._id == env.oid) = true
        · rw [save_duplicate env store _ hv hd]
          exact Or.inl rfl
        · simp only [Bool.not_eq_true] at hd
          rw [save_saved env store _ hv hd]
          exact Or.inr ⟨_, rfl, hd, rfl⟩
      · rw [save_invalid env store _ hv]
        exact Or.inl rfl

theorem update_store_cases (policy : UndefinedKeys) (now : Nat) (store : Store)
    (id : ObjectId) (body : Body) :
    (updatePrototype policy now store id body).1 = store ∨
    ∃ u, (updatePrototype policy now store id body).1
      = modifyFirst id (applyUpdate policy u) store := by
  unfold updatePrototype
  cases whenTruthy body.title with
  | none => exact Or.inl rfl
  | some title =>
    cases whenTruthy body.figmaUrl with
    | none => exact Or.inl rfl
    | some figmaUrl =>
      simp only [findByIdAndUpdate]
      split
      · rename_i heq
        split at heq
        · simp at heq
        · cases hold : findById store id with
          | none => rw [hold] at heq; simp at heq
          | some old =>
            rw [hold] at heq
            simp only [UpdateResult.updated.injEq] at heq
            exact Or.inr ⟨_, heq.1.symm⟩
      · exact Or.inl rfl
      · exact Or.inl rfl

/-- The handlers keep the ids of the store distinct. -/
theorem handlers_keep_ids_distinct (store : Store)
    (hu : (store.map fun p => p._id).Nodup) :
    (∀ env body, ((createPrototype env store body).1.map fun p => p._id).Nodup) ∧
    (∀ policy now id body,
      ((updatePrototype policy now store id body).1.map fun p => p._id).Nodup) ∧
    (∀ cast rawId, ((deletePrototype cast store rawId).1.map fun p => p._id).Nodup) := by
  refine ⟨?_, ?_, ?_⟩
  · intro env body
    rcases create_store_cases env store body with h | ⟨p, hp, hfresh, h⟩
    · rw [h]; exact hu
    · rw [h, List.map_append, List.map_singleton, hp]
      refine List.Nodup.append hu (List.nodup_singleton _) ?_
      intro x hx hx1
      simp only [List.mem_singleton] at hx1
      subst hx1
      obtain ⟨q, hq, hqid⟩ := List.mem_map.1 hx
      have := List.any_eq_false.1 hfresh q hq
      simp only [beq_iff_eq] at this
      exact this hqid
  · intro policy now id body
    rcases update_store_cases policy now store id body with h | ⟨u, h⟩
    · rw [h]; exact hu
    · rw [h, map_id_modifyFirst id _ store (applyUpdate_id policy u)]
      exact hu
  · intro cast rawId
    have hsub : (deletePrototype cast store rawId).1.Sublist store := by
      unfold deletePrototype
      cases cast rawId with
      | none => exact List.Sublist.refl _
      | some id =>
        simp only [deleteById, findByIdAndDelete]
        cases findById store id with
        | none => exact List.Sublist.refl _
        | some p => exact List.eraseP_sublist _
    exact hu.sublist (hsub.map _)

/-! ## Create: the category -/

theorem category_valid_of_invalidPaths_nil {p : Prototype} {c : String}
    (hv : invalidPaths p = []) (hc : p.category = some c) : c ∈ categoryEnum := by
  simp only [invalidPaths, hc, List.append_eq_nil] at hv
  have h := hv.1.2
  by_cases hcv : categoryValid c = true
  · simpa [categoryValid] using hcv
  · simp [hcv] at h

theorem save_invalid_category (env : CreateEnv) (store : Store) (p : Prototype) (c : String)
    (hc : p.category = some c) (hnot : c ∉ categoryEnum) :
    save env store p = .validationError (invalidPaths p) := by
  apply save_invalid
  intro hv
  exact hnot (category_valid_of_invalidPaths_nil hv hc)

/-- C11 fails for a category outside the enumeration: the `enum` validator of
the schema rejects the document, the create is answered 400 and nothing is
stored. -/
theorem create_rejects_unknown_category :
    createPrototype ⟨7, 10, 10, 11⟩ []
        ⟨some "X", none, some "https://figma.com/file/abc", some "game", none⟩
      = ([], ⟨400, .validationError ["category"]⟩) ∧
    "game" ∉ categoryEnum := by
  decide

theorem invalidPaths_nil_of_valid (env : CreateEnv) (body : Body)
    (title figmaUrl : String)
    (htitle : titleValid (jsTrim title) = true)
    (hdesc : ∀ d, body.description = some d → descriptionValid (jsTrim d) = true)
    (hurl : figmaUrlValid figmaUrl = true)
    (htags : ∀ t ∈ processTags body.tags, tagValid t = true)
    (hcat : body.category.getD "other" ∈ categoryEnum) :
    invalidPaths (newPrototype env title body.description figmaUrl body.category
      (processTags body.tags)) = [] := by
  have h1 : categoryValid (body.category.getD "other") = true := by
    simpa [categoryValid] using hcat
  have h2 : ((processTags body.tags).map jsTrim).all tagValid = true := by
    rw [processTags_trimmed, List.all_eq_true]
    exact htags
  have h3 : (match body.description.map jsTrim with
      | some d => if descriptionValid d = true then ([] : List String) else ["description"]
      | none => []) = [] := by
    cases hd : body.description with
    | none => rfl
    | some d => simp [hdesc d hd]
  simp only [invalidPaths, newPrototype, htitle, hurl, h1, h2, h3, ↓reduceIte, List.append_nil]

/-- C11 as amended: the category stored by an accepted create is a member of
the enumeration; it is the supplied category, which is then a member, or
`other` when no category is sent; a create with a category outside the
enumeration is answered 400 and stores nothing; and a create that is otherwise
valid and whose category is omitted or a member of the enumeration succeeds:
it is answered 201 and stores the record with that category. -/
theorem create_category (env : CreateEnv) (store : Store) (body : Body) :
    (∀ store₁ p, createPrototype env store body = (store₁, ⟨201, .doc p⟩) →
      (∃ c, p.category = some c ∧ c ∈ categoryEnum) ∧
      (∀ c, body.category = some c → c ∈ categoryEnum ∧ p.category = some c) ∧
      (body.category = none → p.category = some "other")) ∧
    (∀ c, body.category = some c → c ∉ categoryEnum →
      (createPrototype env store body).2.status = 400 ∧
      (createPrototype env store body).1 = store) ∧
    (OtherwiseValid env store body →
      (body.category = none ∨ ∃ c ∈ categoryEnum, body.category = some c) →
      ∃ p, createPrototype env store body = (store ++ [p], ⟨201, .doc p⟩) ∧
        (∀ c, body.category = some c → p.category = some c) ∧
        (body.category = none → p.category = some "other")) := by
  refine ⟨?_, ?_, ?_⟩
  · intro store₁ p h
    obtain ⟨title, figmaUrl, _, _, hv, _, hp, _⟩ := create_created h
    have hcat : p.category = some (body.category.getD "other") := by rw [hp]; rfl
    have hmem : body.category.getD "other" ∈ categoryEnum :=
      category_valid_of_invalidPaths_nil hv rfl
    refine ⟨⟨_, hcat, hmem⟩, ?_, ?_⟩
    · intro c hc
      rw [hc] at hcat hmem
      exact ⟨hmem, hcat⟩
    · intro hnone
      rw [hnone] at hcat
      exact hcat
  · intro c hc hnot
    unfold createPrototype
    cases whenTruthy body.title with
    | none => exact ⟨rfl, rfl⟩
    | some title =>
      cases whenTruthy body.figmaUrl with
      | none => exact ⟨rfl, rfl⟩
      | some figmaUrl =>
        simp only []
        rw [save_invalid_category env store _ c (by simp [newPrototype, hc]) hnot]
        exact ⟨rfl, rfl⟩
  · rintro ⟨title, figmaUrl, ht, hf, htitle, hdesc, hurl, htags, hfresh⟩ hcat
    have hmem : body.category.getD "other" ∈ categoryEnum := by
      rcases hcat with hnone | ⟨c, hc, hsome⟩
      · rw [hnone]; decide
      · rw [hsome]; exact hc
    have hv := invalidPaths_nil_of_valid env body title figmaUrl htitle hdesc hurl
      htags hmem
    have hd : store.any (fun q => q._id == env.oid) = false := by
      rw [List.any_eq_false]
      intro q hq
      simpa using hfresh q hq
    refine ⟨_, create_succeeds env store body title figmaUrl ht hf hv hd, ?_, ?_⟩
    · intro c hc
      simp only [preSave, newPrototype, hc, Option.getD_some]
    · intro hnone
      simp only [preSave, newPrototype, hnone, Option.getD_none]

/-- C11 as amended, on an otherwise valid create with the category `website`
and on the same create without a category: both are answered 201. -/
theorem create_category_witness :
    createPrototype ⟨7, 10, 10, 11⟩ []
        ⟨some "X", none, some "https://figma.com/file/abc", some "website", none⟩
      = ([⟨7, "X", none, "https://figma.com/file/abc", some "website", [], 10, 11⟩],
         ⟨201, .doc ⟨7, "X", none, "https://figma.com/file/abc", some "website", [], 10, 11⟩⟩) ∧
    createPrototype ⟨7, 10, 10, 11⟩ []
        ⟨some "X", none, some "https://figma.com/file/abc", none, none⟩
      = ([⟨7, "X", none, "https://figma.com/file/abc", some "other", [], 10, 11⟩],
         ⟨201, .doc ⟨7, "X", none, "https://figma.com/file/abc", some "other", [], 10, 11⟩⟩) ∧
    ("website" ∈ categoryEnum ∧
      (⟨7, "X", none, "https://figma.com/file/abc", some "website", [], 10, 11⟩
        : Prototype).category = some "website") ∧
    (∃ p, createPrototype ⟨7, 10, 10, 11⟩ []
          ⟨some "X", none, some "https://figma.com/file/abc", some "website", none⟩
        = ([] ++ [p], ⟨201, .doc p⟩) ∧
      (∀ c, some "website" = some c → p.category = some c) ∧
      ((some "website" : Option String) = none → p.category = some "other")) :=
  ⟨by decide, by decide,
   ((create_category ⟨7, 10, 10, 11⟩ []
      ⟨some "X", none, some "https://figma.com/file/abc", some "website", none⟩).1
      [⟨7, "X", none, "https://figma.com/file/abc", some "website", [], 10, 11⟩]
      ⟨7, "X", none, "https://figma.com/file/abc", some "website", [], 10, 11⟩
      (by decide)).2.1 "website" rfl,
   (create_category ⟨7, 10, 10, 11⟩ []
      ⟨some "X", none, some "https://figma.com/file/abc", some "website", none⟩).2.2
      ⟨"X", "https://figma.com/file/abc", by decide, by decide, by decide,
        fun d hd => by simp at hd, by decide, fun t ht => by simp [processTags, whenTruthy] at ht,
        fun q hq => by simp at hq⟩
      (Or.inr ⟨"website", by decide, rfl⟩)⟩

/-! ## The controller: links -/

theorem includesChars_iff_occurs (pat s : List Char) :
    includesChars pat s = true ↔ pat <:+: s := by
  induction s with
  | nil => simp [includesChars, List.infix_nil]
  | cons c cs ih =>
    simp only [includesChars, Bool.or_eq_true, ih, List.infix_cons_iff,
      List.isPrefixOf_iff_prefix]

theorem jsIncludes_iff_contains (u pat : String) :
    jsIncludes u pat = true ↔ Contains u pat := by
  unfold jsIncludes Contains
  rw [includesChars_iff_occurs]
  constructor
  · rintro ⟨a, b, h⟩
    exact ⟨⟨a⟩, ⟨b⟩, String.ext (by simp [String.data_append, h])⟩
  · rintro ⟨a, b, h⟩
    refine ⟨a.data, b.data, ?_⟩
    rw [h]
    simp [String.data_append]

theorem replaceFirstChars_first (pat rep : List Char) (s : List Char)
    (h : includesChars pat s = true) :
    ∃ pre post, s = pre ++ pat ++ post ∧
      (∀ pre₁ post₁, s = pre₁ ++ pat ++ post₁ → pre.length ≤ pre₁.length) ∧
      replaceFirstChars pat rep s = pre ++ rep ++ post := by
  induction s with
  | nil =>
    have hp : pat = [] := by simpa [includesChars] using h
    subst hp
    exact ⟨[], [], rfl, fun _ _ _ => Nat.zero_le _, by simp [replaceFirstChars]⟩
  | cons c cs ih =>
    by_cases hpre : pat.isPrefixOf (c :: cs) = true
    · refine ⟨[], (c :: cs).drop pat.length, ?_, fun _ _ _ => Nat.zero_le _, ?_⟩
      · have := List.prefix_iff_eq_append.1 (List.isPrefixOf_iff_prefix.1 hpre)
        simpa using this.symm
      · simp [replaceFirstChars, hpre]
    · have hin : includesChars pat cs = true := by
        simp only [includesChars, Bool.or_eq_true] at h
        exact h.resolve_left hpre
      obtain ⟨pre, post, hs, hmin, hrep⟩ := ih hin
      refine ⟨c :: pre, post, by simp [hs], ?_, ?_⟩
      · intro pre₁ post₁ h₁
        cases pre₁ with
        | nil =>
          exfalso
          apply hpre
          rw [List.isPrefixOf_iff_prefix]
          exact ⟨post₁, by simpa using h₁.symm⟩
        | cons d pre₂ =>
          simp only [List.cons_append, List.cons.injEq] at h₁
          have := hmin pre₂ post₁ (by simpa using h₁.2)
          simp only [List.length_cons]
          omega
      · simp [replaceFirstChars, hpre, hrep]

theorem jsReplace_first (u pat rep : String) (h : jsIncludes u pat = true) :
    ∃ pre post : String, FirstOccurrence u pat pre post ∧
      jsReplace u pat rep = pre ++ rep ++ post := by
  obtain ⟨pre, post, hs, hmin, hrep⟩ := replaceFirstChars_first pat.data rep.data u.data h
  refine ⟨⟨pre⟩, ⟨post⟩, ⟨?_, ?_⟩, ?_⟩
  · exact String.ext (by simp [String.data_append, hs])
  · intro pre₁ post₁ h₁
    have hdata : u.data = pre₁.data ++ pat.data ++ post₁.data := by
      rw [h₁, String.data_append, String.data_append]
    exact hmin pre₁.data post₁.data hdata
  · exact String.ext (by simp [jsReplace, String.data_append, hrep])

/-- C12: `convertToEmbedUrl` replaces the first occurrence of `/proto/` by the
embed marker and appends the viewer parameter when the link contains `/proto/`;
otherwise it does the same with `/file/` when the link contains `/file/`;
otherwise it returns the link unchanged. -/
theorem convertToEmbedUrl_cases (u : String) :
    (Contains u "/proto/" →
      ∃ pre post : String, FirstOccurrence u "/proto/" pre post ∧
        PrototypeManager.convertToEmbedUrl u
          = pre ++ "/embed?embed_host=share&url=" ++ post ++ "&chrome=DOCUMENTATION") ∧
    (¬ Contains u "/proto/" → Contains u "/file/" →
      ∃ pre post : String, FirstOccurrence u "/file/" pre post ∧
        PrototypeManager.convertToEmbedUrl u
          = pre ++ "/embed?embed_host=share&url=" ++ post ++ "&chrome=DOCUMENTATION") ∧
    (¬ Contains u "/proto/" → ¬ Contains u "/file/" →
      PrototypeManager.convertToEmbedUrl u = u) := by
  simp only [← jsIncludes_iff_contains]
  refine ⟨?_, ?_, ?_⟩
  · intro hp
    obtain ⟨pre, post, hfirst, hrep⟩ :=
      jsReplace_first u "/proto/" "/embed?embed_host=share&url=" hp
    exact ⟨pre, post, hfirst, by simp only [PrototypeManager.convertToEmbedUrl, hp, ↓reduceIte, hrep]⟩
  · intro hp hf
    obtain ⟨pre, post, hfirst, hrep⟩ :=
      jsReplace_first u "/file/" "/embed?embed_host=share&url=" hf
    refine ⟨pre, post, hfirst, ?_⟩
    simp only [PrototypeManager.convertToEmbedUrl, hp, hf, ↓reduceIte, hrep,
      Bool.false_eq_true]
  · intro hp hf
    simp only [PrototypeManager.convertToEmbedUrl, hp, hf, ↓reduceIte, Bool.false_eq_true]

/-- C12 on a prototype-view link. -/
theorem convertToEmbedUrl_cases_witness :
    PrototypeManager.convertToEmbedUrl "https://www.figma.com/proto/abc/Demo"
      = "https://www.figma.com/embed?embed_host=share&url=abc/Demo&chrome=DOCUMENTATION" ∧
    ∃ pre post : String,
      FirstOccurrence "https://www.figma.com/proto/abc/Demo" "/proto/" pre post ∧
      PrototypeManager.convertToEmbedUrl "https://www.figma.com/proto/abc/Demo"
        = pre ++ "/embed?embed_host=share&url=" ++ post ++ "&chrome=DOCUMENTATION" :=
  ⟨by decide,
   (convertToEmbedUrl_cases "https://www.figma.com/proto/abc/Demo").1
     ⟨"https://www.figma.com", "abc/Demo", by decide⟩⟩

/-- C15: the client check `isValidFigmaUrl` and the validator of the `figmaUrl`
path of the schema agree on every string, and both hold exactly when the
string contains `figma.com` and contains `/proto/` or `/file/`. -/
theorem isValidFigmaUrl_mirrors_schema (u : String) :
    PrototypeManager.isValidFigmaUrl u = figmaUrlValidator u ∧
    (PrototypeManager.isValidFigmaUrl u = true ↔
      Contains u "figma.com" ∧ (Contains u "/proto/" ∨ Contains u "/file/")) ∧
    (figmaUrlValidator u = true ↔
      Contains u "figma.com" ∧ (Contains u "/proto/" ∨ Contains u "/file/")) := by
  refine ⟨rfl, ?_, ?_⟩
  · simp only [PrototypeManager.isValidFigmaUrl, Bool.and_eq_true, Bool.or_eq_true,
      jsIncludes_iff_contains]
  · simp only [figmaUrlValidator, Bool.and_eq_true, Bool.or_eq_true, jsIncludes_iff_contains]

/-! ## The controller: modals -/

theorem apply_keeps_exclusive (initial : Form) (step : ModalStep) (pm : PrototypeManager)
    (hinv : ¬(pm.prototypeModalActive = true ∧ pm.detailModalActive = true))
    (hg : opensWhileOtherClosed initial [step] pm = true) :
    ¬((step.apply initial pm).prototypeModalActive = true ∧
      (step.apply initial pm).detailModalActive = true) := by
  cases step with
  | openAddModal =>
    simp only [opensWhileOtherClosed, Bool.and_true, Bool.not_eq_true'] at hg
    simp [ModalStep.apply, PrototypeManager.openAddModal, hg]
  | openEditModal id =>
    simp only [opensWhileOtherClosed, Bool.and_true, Bool.not_eq_true'] at hg
    simp only [ModalStep.apply, PrototypeManager.openEditModal]
    split
    · exact hinv
    · simp [hg]
  | closeModal => simp [ModalStep.apply, PrototypeManager.closeModal]
  | openDetailModal id =>
    simp only [opensWhileOtherClosed, Bool.and_true, Bool.not_eq_true'] at hg
    simp only [ModalStep.apply, PrototypeManager.openDetailModal]
    split
    · exact hinv
    · simp [hg]
  | closeDetailModal => simp [ModalStep.apply, PrototypeManager.closeDetailModal]
  | escapeKey =>
    simp [ModalStep.apply, PrototypeManager.escapeKey, PrototypeManager.closeDetailModal]

theorem runSteps_keeps_exclusive (initial : Form) (steps : List ModalStep)
    (pm : PrototypeManager)
    (hinv : ¬(pm.prototypeModalActive = true ∧ pm.detailModalActive = true))
    (hg : opensWhileOtherClosed initial steps pm = true) :
    ¬((runSteps initial steps pm).prototypeModalActive = true ∧
      (runSteps initial steps pm).detailModalActive = true) := by
  induction steps generalizing pm with
  | nil => exact hinv
  | cons step rest ih =>
    have hsplit : opensWhileOtherClosed initial [step] pm = true ∧
        opensWhileOtherClosed initial rest (step.apply initial pm) = true := by
      simp only [opensWhileOtherClosed, Bool.and_eq_true, Bool.and_true] at hg ⊢
      exact hg
    simp only [runSteps, List.foldl_cons]
    exact ih _ (apply_keeps_exclusive initial step pm hinv hsplit.1) hsplit.2

/-- C13 fails: from the state with both modals closed, `openAddModal` followed
by `openDetailModal` on an item of the list leaves both modals open. -/
theorem both_modals_open :
    (runSteps blankForm [.openAddModal, .openDetailModal 1]
      ⟨[uiKit], none, false, false, blankForm, "", .hidden⟩).prototypeModalActive = true ∧
    (runSteps blankForm [.openAddModal, .openDetailModal 1]
      ⟨[uiKit], none, false, false, blankForm, "", .hidden⟩).detailModalActive = true := by
  decide

/-- C13 as amended: starting with both modals closed, along every sequence of
steps in which a step that opens one modal is taken only while the other modal
is closed, at most one of the two modals is open, for every list of items; and
the key `Escape` closes both from any state. -/
theorem modals_exclusive (initial : Form) (steps : List ModalStep) (pm : PrototypeManager)
    (hedit : pm.prototypeModalActive = false) (hdetail : pm.detailModalActive = false)
    (hg : opensWhileOtherClosed initial steps pm = true) :
    ¬((runSteps initial steps pm).prototypeModalActive = true ∧
      (runSteps initial steps pm).detailModalActive = true) ∧
    ((runSteps initial steps pm).escapeKey.prototypeModalActive = false ∧
      (runSteps initial steps pm).escapeKey.detailModalActive = false) := by
  refine ⟨runSteps_keeps_exclusive initial steps pm (by rw [hedit, hdetail]; simp) hg,
    rfl, rfl⟩

/-- C13 as amended, on a run that opens the detail view, closes it, and opens
the edit form. -/
theorem modals_exclusive_witness :
    runSteps blankForm [.openDetailModal 1, .closeDetailModal, .openEditModal 1]
        ⟨[uiKit], none, false, false, blankForm, "", .hidden⟩
      = ⟨[uiKit], some 1, true, false,
          ⟨"UI Kit", "", "https://www.figma.com/file/abc", "ui-kit", ""⟩, "", .hidden⟩ ∧
    ¬((runSteps blankForm [.openDetailModal 1, .closeDetailModal, .openEditModal 1]
        ⟨[uiKit], none, false, false, blankForm, "", .hidden⟩).prototypeModalActive = true ∧
      (runSteps blankForm [.openDetailModal 1, .closeDetailModal, .openEditModal 1]
        ⟨[uiKit], none, false, false, blankForm, "", .hidden⟩).detailModalActive = true) :=
  ⟨by decide,
   (modals_exclusive blankForm [.openDetailModal 1, .closeDetailModal, .openEditModal 1]
      ⟨[uiKit], none, false, false, blankForm, "", .hidden⟩ rfl rfl (by decide)).1⟩

/-! ## The controller: refresh -/

/-- C14 fails: a refresh whose fetch is rejected empties a list that held a
record. -/
theorem failed_refresh_empties_items :
    ((⟨[uiKit], none, false, false, blankForm, "", .hidden⟩ : PrototypeManager).loadPrototypes
      .rejected).prototypes = [] ∧
    (⟨[uiKit], none, false, false, blankForm, "", .hidden⟩ : PrototypeManager).prototypes
      ≠ [] := by
  decide

/-- C14 as amended: a refresh whose fetch fails sets the items to the empty
list, also after a create, update or delete that succeeded; a refresh whose
fetch succeeds sets the items to the list of the response; and a create, update
or delete that fails, or a delete that is not confirmed, performs no refresh
and leaves the items exactly as they were. -/
theorem refresh_items (pm : PrototypeManager) (fetched : Fetched) :
    ((fetched = .notOk ∨ fetched = .rejected) →
      (pm.loadPrototypes fetched).prototypes = [] ∧
      (pm.addPrototype true fetched).1.prototypes = [] ∧
      (pm.updatePrototype true fetched).1.prototypes = [] ∧
      (pm.deletePrototype true true fetched).prototypes = []) ∧
    (∀ docs, fetched = .ok docs →
      (pm.loadPrototypes fetched).prototypes = docs ∧
      (pm.addPrototype true fetched).1.prototypes = docs ∧
      (pm.updatePrototype true fetched).1.prototypes = docs ∧
      (pm.deletePrototype true true fetched).prototypes = docs) ∧
    ((pm.addPrototype false fetched).1 = pm ∧
      (pm.updatePrototype false fetched).1 = pm ∧
      (pm.deletePrototype true false fetched) = pm ∧
      ∀ deleted, (pm.deletePrototype false deleted fetched) = pm) := by
  have hupd : ∀ q : PrototypeManager, q.updateEmptyState.prototypes = q.prototypes := by
    intro q
    simp only [PrototypeManager.updateEmptyState]
    split
    · rfl
    · split <;> rfl
  refine ⟨?_, ?_, ?_⟩
  · rintro (h | h) <;> subst h <;>
      simp [PrototypeManager.addPrototype, PrototypeManager.updatePrototype,
        PrototypeManager.deletePrototype, PrototypeManager.closeDetailModal, hupd,
        PrototypeManager.loadPrototypes]
  · intro docs h
    subst h
    simp [PrototypeManager.addPrototype, PrototypeManager.updatePrototype,
      PrototypeManager.deletePrototype, PrototypeManager.closeDetailModal, hupd,
      PrototypeManager.loadPrototypes]
  · simp [PrototypeManager.addPrototype, PrototypeManager.updatePrototype,
      PrototypeManager.deletePrototype]

/-- C14 as amended, on a refresh that succeeds with one record. -/
theorem refresh_items_witness :
    ((⟨[], none, false, false, blankForm, "", .hidden⟩ : PrototypeManager).loadPrototypes
      (.ok [uiKit])).prototypes = [uiKit] ∧
    ((⟨[uiKit], none, false, false, blankForm, "", .hidden⟩ : PrototypeManager).loadPrototypes
      .notOk).prototypes = [] :=
  ⟨((refresh_items ⟨[], none, false, false, blankForm, "", .hidden⟩ (.ok [uiKit])).2.1
      [uiKit] rfl).1,
   ((refresh_items ⟨[uiKit], none, false, false, blankForm, "", .hidden⟩ .notOk).1
      (Or.inl rfl)).1⟩

/-! ## The controller: the edit action -/

theorem openEditModal_null (pm : PrototypeManager) : pm.openEditModal none = pm := by
  have hfind : pm.prototypes.find? (fun p => some p._id == none) = none := by
    rw [List.find?_eq_none]
    intro p _
    simp
  simp only [PrototypeManager.openEditModal, hfind]

/-- The edit action only closes the detail view: `closeDetailModal` resets
`currentEditId` before `openEditModal` reads it. -/
theorem editPrototype_only_closes (pm : PrototypeManager) (id : ObjectId)
    (h : pm.currentEditId = some id) : editPrototype pm = pm.closeDetailModal := by
  simp only [editPrototype, h]
  exact openEditModal_null _

/-- C16 on the list `[uiKit]`: with the detail view open on the record, the
edit action ends with both modals closed and no target id, not with the edit
form open on the record. -/
theorem editPrototype_from_detail :
    (⟨[uiKit], none, false, false, blankForm, "", .hidden⟩
        : PrototypeManager).openDetailModal (some 1)
      = ⟨[uiKit], some 1, false, true, blankForm,
          "https://www.figma.com/embed?embed_host=share&url=abc&chrome=DOCUMENTATION",
          .hidden⟩ ∧
    editPrototype ⟨[uiKit], some 1, false, true, blankForm,
        "https://www.figma.com/embed?embed_host=share&url=abc&chrome=DOCUMENTATION", .hidden⟩
      = ⟨[uiKit], none, false, false, blankForm, "", .hidden⟩ := by
  decide

/-! ## The controller: the empty state -/

/-- The heading `No matching prototypes` is never displayed: the empty state
shows `No prototypes yet` when the items are empty and is hidden otherwise. -/
theorem updateEmptyState_two_states (pm : PrototypeManager) :
    (pm.prototypes = [] →
      pm.updateEmptyState.emptyState = .shown "No prototypes yet"
        "Start building your design portfolio by adding your first Figma prototype!") ∧
    (pm.prototypes ≠ [] → pm.updateEmptyState.emptyState = .hidden) := by
  constructor
  · intro h
    simp [PrototypeManager.updateEmptyState, h]
  · intro h
    have hpos : 0 < pm.prototypes.length := List.length_pos.2 h
    simp [PrototypeManager.updateEmptyState, PrototypeManager.getFilteredPrototypes, hpos]

/-- C17 on the store `[uiKit]` and the search `zzz`: the store is not empty, the
filtered fetch returns the empty list, and the empty state shows
`No prototypes yet`, not `No matching prototypes`. -/
theorem empty_state_after_unmatched_search :
    fetchPrototypes (fragmentEngine Char.toLower) [uiKit] ⟨some "zzz", none, none⟩ = .ok [] ∧
    ((⟨[uiKit], none, false, false, blankForm, "", .hidden⟩
        : PrototypeManager).filterPrototypes (.ok [])).emptyState
      = .shown "No prototypes yet"
          "Start building your design portfolio by adding your first Figma prototype!" := by
  decide

/-! ## The controller: tags of the edit form -/

theorem trimChars_of_clean (l : List Char)
    (hhead : ∀ c, l.head? = some c → jsIsWhiteSpace c = false)
    (hlast : ∀ c, l.getLast? = some c → jsIsWhiteSpace c = false) :
    trimChars l = l := by
  have h1 : l.dropWhile jsIsWhiteSpace = l := by
    cases l with
    | nil => rfl
    | cons c cs => simp [List.dropWhile_cons, hhead c rfl]
  have h2 : l.rdropWhile jsIsWhiteSpace = l := by
    rw [List.rdropWhile_eq_self_iff]
    intro hl
    rw [hlast _ (List.getLast?_eq_getLast l hl)]
    simp
  rw [trimChars, h1, h2]

theorem trimChars_space_cons (l : List Char) : trimChars (' ' :: l) = trimChars l := by
  have hs : jsIsWhiteSpace ' ' = true := by decide
  simp [trimChars, List.dropWhile_cons, hs]

theorem splitChars_of_not_mem (sep : Char) (l : List Char) (h : sep ∉ l) :
    splitChars sep l = [l] := by
  induction l with
  | nil => rfl
  | cons c cs ih =>
    simp only [List.mem_cons, not_or] at h
    have hc : ¬ c = sep := fun e => h.1 e.symm
    simp [splitChars, hc, ih h.2]

theorem splitChars_append_sep (sep : Char) (l rest : List Char) (h : sep ∉ l) :
    splitChars sep (l ++ sep :: rest) = l :: splitChars sep rest := by
  induction l with
  | nil => simp [splitChars]
  | cons c cs ih =>
    simp only [List.mem_cons, not_or] at h
    have hc : ¬ c = sep := fun e => h.1 e.symm
    simp [splitChars, hc, ih h.2]

theorem splitChars_intercalate (t : List Char) (ts : List (List Char))
    (ht : ',' ∉ t) (hts : ∀ x ∈ ts, ',' ∉ x) :
    splitChars ',' ([',', ' '].intercalate (t :: ts)) = t :: ts.map fun x => ' ' :: x := by
  induction ts generalizing t with
  | nil => simpa [List.intercalate] using splitChars_of_not_mem ',' t ht
  | cons u us ih =>
    have hu : ',' ∉ (' ' :: u) := by
      simp only [List.mem_cons, not_or]
      exact ⟨by decide, hts u (List.mem_cons_self _ _)⟩
    have hus : ∀ x ∈ us, ',' ∉ x := fun x hx => hts x (List.mem_cons_of_mem _ hx)
    have hstep : [',', ' '].intercalate (t :: u :: us)
        = t ++ ',' :: [',', ' '].intercalate ((' ' :: u) :: us) := by
      cases us <;> simp [List.intercalate]
    rw [hstep, splitChars_append_sep ',' t _ ht, ih (' ' :: u) hu hus]
    simp

theorem jsTrim_of_clean (t : String) (h : NoSurroundingWhiteSpace t) : jsTrim t = t := by
  obtain ⟨l⟩ := t
  simp only [jsTrim]
  rw [trimChars_of_clean l h.1 h.2]

theorem processTags_join_cons (t : String) (ts : List String)
    (h : ∀ x ∈ t :: ts, CleanTag x) :
    processTags (some (jsJoin (t :: ts) ", ")) = t :: ts := by
  rw [processTags_some]
  have hdata : (jsJoin (t :: ts) ", ").data
      = [',', ' '].intercalate (t.data :: ts.map String.data) := rfl
  have hsplit : jsSplit (jsJoin (t :: ts) ", ") ','
      = t :: ts.map fun x => (⟨' ' :: x.data⟩ : String) := by
    simp only [jsSplit, hdata]
    rw [splitChars_intercalate t.data (ts.map String.data) (h t (List.mem_cons_self _ _)).2.2]
    · simp [List.map_map, Function.comp_def]
    · intro x hx
      obtain ⟨y, hy, rfl⟩ := List.mem_map.1 hx
      exact (h y (List.mem_cons_of_mem _ hy)).2.2
  have htrim : (t :: ts.map fun x => (⟨' ' :: x.data⟩ : String)).map jsTrim = t :: ts := by
    simp only [List.map_cons, List.map_map]
    rw [jsTrim_of_clean t (h t (List.mem_cons_self _ _)).2.1]
    congr 1
    calc List.map (jsTrim ∘ fun x => (⟨' ' :: x.data⟩ : String)) ts = List.map id ts := by
          apply List.map_congr_left
          intro x hx
          have hx1 := jsTrim_of_clean x (h x (List.mem_cons_of_mem _ hx)).2.1
          simp only [Function.comp_apply, jsTrim, trimChars_space_cons, id_eq]
          exact hx1
      _ = ts := List.map_id ts
  rw [hsplit, htrim, List.filter_eq_self]
  intro x hx
  simpa using (h x hx).1

theorem trimChars_clean (l : List Char) :
    (∀ c, (trimChars l).head? = some c → jsIsWhiteSpace c = false) ∧
    (∀ c, (trimChars l).getLast? = some c → jsIsWhiteSpace c = false) := by
  constructor
  · intro c hc
    obtain ⟨t, ht⟩ := List.rdropWhile_prefix jsIsWhiteSpace (l.dropWhile jsIsWhiteSpace)
    have hnot := List.head?_dropWhile_not jsIsWhiteSpace l
    unfold trimChars at hc
    cases hr : (l.dropWhile jsIsWhiteSpace).rdropWhile jsIsWhiteSpace with
    | nil => rw [hr] at hc; simp at hc
    | cons a r =>
      rw [hr] at hc ht
      simp only [List.head?_cons, Option.some.injEq] at hc
      subst hc
      rw [← ht] at hnot
      simpa using hnot
  · intro c hc
    unfold trimChars at hc
    by_cases hne : (l.dropWhile jsIsWhiteSpace).rdropWhile jsIsWhiteSpace = []
    · rw [hne] at hc; simp at hc
    · have hlast := List.rdropWhile_last_not jsIsWhiteSpace _ hne
      rw [List.getLast?_eq_getLast _ hne] at hc
      simp only [Option.some.injEq] at hc
      rw [hc] at hlast
      simpa using hlast

theorem mem_of_mem_trimChars (l : List Char) (c : Char) (h : c ∈ trimChars l) : c ∈ l := by
  unfold trimChars at h
  exact (List.dropWhile_suffix jsIsWhiteSpace).subset
    ((List.rdropWhile_prefix jsIsWhiteSpace _).subset h)

/-- Every tag the server's tag processing produces is clean. -/
theorem processTags_clean (raw : Option String) : ∀ t ∈ processTags raw, CleanTag t := by
  intro t ht
  cases raw with
  | none => simp [processTags, whenTruthy] at ht
  | some r =>
    rw [processTags_some, List.mem_filter] at ht
    obtain ⟨hmem, hne⟩ := ht
    obtain ⟨x, hx, rfl⟩ := List.mem_map.1 hmem
    simp only [jsSplit, List.mem_map] at hx
    obtain ⟨l, hl, rfl⟩ := hx
    refine ⟨by simpa using hne, trimChars_clean l, ?_⟩
    intro hcomma
    exact not_mem_splitChars ',' r.data l hl (mem_of_mem_trimChars l ',' hcomma)

/-- C18: for every list of clean tags (each not empty, without white space at
either end, without comma), the server's tag processing applied to the tags
joined with `", "`, which is the value `openEditModal` puts in the tags field of
the form and `handleFormSubmit` sends back, is the list itself; this includes
the empty list. -/
theorem edit_form_keeps_tags (tags : List String) (h : ∀ t ∈ tags, CleanTag t) :
    processTags (some (jsJoin tags ", ")) = tags ∧
    ∀ (pm : PrototypeManager) (id : ObjectId) (p : Prototype),
      pm.prototypes.find? (fun q => some q._id == some id) = some p → p.tags = tags →
      processTags (pm.openEditModal (some id)).prototypeData.tags = tags := by
  have hmain : processTags (some (jsJoin tags ", ")) = tags := by
    cases tags with
    | nil => decide
    | cons t ts => exact processTags_join_cons t ts h
  refine ⟨hmain, ?_⟩
  intro pm id p hfind htags
  simp only [PrototypeManager.openEditModal, hfind, PrototypeManager.prototypeData, htags]
  exact hmain

/-- C18 on the tags `["a b", "c"]` of a record opened in the edit form, and on
the empty list. -/
theorem edit_form_keeps_tags_witness :
    processTags (some (jsJoin ["a b", "c"] ", ")) = ["a b", "c"] ∧
    processTags (some (jsJoin [] ", ")) = [] :=
  ⟨(edit_form_keeps_tags ["a b", "c"] (by
      intro t ht
      simp only [List.mem_cons, List.mem_singleton, List.not_mem_nil, or_false] at ht
      rcases ht with rfl | rfl <;>
        exact ⟨by decide, ⟨by decide, by decide⟩, by decide⟩)).1,
   (edit_form_keeps_tags [] (by intro t ht; simp at ht)).1⟩

end FigmaPortfolio
